import Mathlib

/-!
# Verification of the SIMM calculation engine (`orea/simm/simmcalculator.cpp`)

Shallow embedding of the SIMM margin engine.  Numeric values that the C++
code holds in `QuantLib::Real` (IEEE double) are modelled as exact numbers:
`ℚ` for the purely order/equality-based components (regulation splitting,
winning-regulation selection, add-on margins) and `ℝ` for the margin
calculators, which use `sqrt`.  The floating-point comparison helper
`QuantLib::close_enough` and the constant `std::numeric_limits<Real>::min()`
are embedded with their exact dyadic-rational constants
(`42 * 2^-52` and `2^-1022`).

Iteration order conventions: the C++ code stores records in multi-index
containers and buckets/qualifiers in `std::map`/`std::set` (sorted order).
The embedding keeps records in lists (list order standing in for container
order) and models key sets by first-occurrence deduplication; concrete
inputs in counterexamples and witnesses are arranged so that both orders
coincide.
-/

namespace Simm

/-- Risk types of CRIF records used by the calculator
    (`SimmConfiguration::RiskType`). -/
inductive RiskType where
  | IRCurve
  | Inflation
  | XCcyBasis
  | IRVol
  | InflationVol
  | FX
  | FXVol
  | CreditQ
  | CreditVol
  | EquityVol
  | CommodityVol
  | Notional
  | AddOnNotionalFactor
  | AddOnFixedAmount
  | ProductClassMultiplier
deriving DecidableEq, Repr

/-- The two SIMM sides (`SimmConfiguration::SimmSide`). -/
inductive SimmSide where
  | Call
  | Post
deriving DecidableEq, Repr

/-- One CRIF (net sensitivity) record, `CrifRecord` in the source.  The
    number type is a parameter: `ℚ` is used for the exact/structural
    components and `ℝ` for the margin calculators.  `productClass` is kept
    as a string, with `""` standing for `ProductClass::Empty`. -/
structure CrifRec (α : Type) where
  nettingSet : String
  productClass : String
  riskType : RiskType
  qualifier : String
  bucket : String
  label1 : String
  label2 : String
  amount : α
  amountUsd : α
  amountCcy : String
  collectRegulations : String
  postRegulations : String
  imModel : String
  tradeId : String
deriving DecidableEq

/-- First-occurrence deduplication, auxiliary: `seen` accumulates the keys
    already emitted. -/
def firstDedupAux (seen : List String) : List String → List String
  | [] => []
  | x :: xs =>
      if x ∈ seen then firstDedupAux seen xs
      else x :: firstDedupAux (x :: seen) xs

/-- First-occurrence deduplication of a list of keys; models iteration over
    the key set of a grouping container. -/
def firstDedup (l : List String) : List String :=
  firstDedupAux [] l

/-! ## Regulation splitting (`SimmCalculator::SimmCalculator`,
    `SimmCalculator::addCrifRecord`) -/

/-- Schedule-only CRIF records are removed before any processing
    (constructor, lines 79-102). -/
def nonSchedule (recs : List (CrifRec α)) : List (CrifRec α) :=
  recs.filter (fun r => r.imModel ≠ "Schedule")

/-- `collectRegsIsEmpty_[nsd]`: true iff every (non-Schedule) record of the
    netting set has an empty collect-regulations string. -/
def collectRegsEmptyFor (recs : List (CrifRec α)) (nsd : String) : Bool :=
  ((nonSchedule recs).filter (fun r => r.nettingSet = nsd)).all
    (fun r => r.collectRegulations = "")

/-- `postRegsIsEmpty_[nsd]`: true iff every (non-Schedule) record of the
    netting set has an empty post-regulations string. -/
def postRegsEmptyFor (recs : List (CrifRec α)) (nsd : String) : Bool :=
  ((nonSchedule recs).filter (fun r => r.nettingSet = nsd)).all
    (fun r => r.postRegulations = "")

/-- The regulation string relevant for a side: collect regulations for
    `Call`, post regulations for `Post`. -/
def sideRegs (side : SimmSide) (r : CrifRec α) : String :=
  match side with
  | .Call => r.collectRegulations
  | .Post => r.postRegulations

/-- Modelled from the spec: `parseRegulationString` (declared in
    `orea/simm/utilities.hpp`, implementation not in `src/`).  Parses a
    comma-separated regulation list; an empty string means no regulation
    was given, which the engine represents by the single tag
    "Unspecified" ("otherwise keep Unspecified so unregulated trades still
    compute"). -/
def parseRegulationString (s : String) : List String :=
  if s = "" then ["Unspecified"] else s.splitOn ","

/-- The parsed regulation tags of a record on a side.  When
    `enforceIMRegulations` is false the code parses an empty string
    (`addCrifRecord`, lines 1667-1670). -/
def rawRegs (enforce : Bool) (side : SimmSide) (r : CrifRec α) : List String :=
  parseRegulationString (if enforce then sideRegs side r else "")

/-- The filter of `addCrifRecord` (lines 1675-1678): the tag "Excluded" is
    dropped unconditionally and "Unspecified" is dropped when
    `enforceIMRegulations` is set and the netting set had some non-empty
    collect or post regulation list (`!(collectRegsIsEmpty && postRegsIsEmpty)`). -/
def keptRegs (enforce cEmpty pEmpty : Bool) (regs : List String) : List String :=
  regs.filter
    (fun t => ¬(t = "Excluded" ∨ (t = "Unspecified" ∧ enforce = true ∧ ¬(cEmpty = true ∧ pEmpty = true))))

/-- The regulation tags under which a record is inserted for a side. -/
def regsForRecord (recs : List (CrifRec α)) (enforce : Bool) (side : SimmSide)
    (r : CrifRec α) : List String :=
  keptRegs enforce (collectRegsEmptyFor recs r.nettingSet)
    (postRegsEmptyFor recs r.nettingSet) (rawRegs enforce side r)

/-- The per-(side, netting set, regulation) bucket of records built by the
    splitting loop (constructor, lines 114-117). -/
def regBucket (recs : List (CrifRec α)) (enforce : Bool) (side : SimmSide)
    (nsd reg : String) : List (CrifRec α) :=
  ((nonSchedule recs).filter (fun r => r.nettingSet = nsd)).filter
    (fun r => reg ∈ regsForRecord recs enforce side r)

/-- The regulation names present for a (side, netting set), in
    first-occurrence order. -/
def regNames (recs : List (CrifRec α)) (enforce : Bool) (side : SimmSide)
    (nsd : String) : List String :=
  firstDedup
    (((nonSchedule recs).filter (fun r => r.nettingSet = nsd)).flatMap
      (regsForRecord recs enforce side))

/-- Post-processing of the constructor (lines 146-147): if a netting set
    holds "Unspecified" together with at least one other regulation, the
    "Unspecified" bucket is erased. -/
def finalRegNames (ns : List String) : List String :=
  if "Unspecified" ∈ ns ∧ 1 < ns.length then ns.filter (fun t => t ≠ "Unspecified") else ns

/-! ## The CFTC-into-SEC merge (constructor, lines 120-141) -/

/-- Modelled from the spec: equality of CRIF records as used by the
    net-sensitivity container when records are aggregated and looked up
    "ignoring amountCcy" (`CrifRecord` comparison and
    `CrifLoader::add(newCrifRecord, onDiffAmountCcy)` are not in `src/`).
    Records are equal on every field except the native amount currency
    ("comparison excludes currency-of-amount field, since only
    USD-converted amounts matter"). -/
def eqIgnAmountCcy [DecidableEq α] (a b : CrifRec α) : Bool :=
  a.nettingSet = b.nettingSet ∧ a.productClass = b.productClass ∧
  a.riskType = b.riskType ∧ a.qualifier = b.qualifier ∧
  a.bucket = b.bucket ∧ a.label1 = b.label1 ∧ a.label2 = b.label2 ∧
  a.amount = b.amount ∧ a.amountUsd = b.amountUsd ∧
  a.collectRegulations = b.collectRegulations ∧
  a.postRegulations = b.postRegulations ∧
  a.imModel = b.imModel ∧ a.tradeId = b.tradeId

/-- The merge loop (lines 128-140): every net CFTC record that has no equal
    record (ignoring amountCcy) already in the SEC bucket is added to the
    SEC bucket; the lookup is against the SEC records as they were before
    the loop. -/
def mergeCFTCIntoSEC [DecidableEq α] (sec cftc : List (CrifRec α)) : List (CrifRec α) :=
  sec ++ cftc.filter (fun c => ¬ sec.any (fun s => eqIgnAmountCcy c s))

/-- The per-netting-set regulation post-processing of the constructor: the
    CFTC-into-SEC merge applies only when both regulation buckets exist
    (`hasCFTC && hasSEC`), and the CFTC bucket itself is left intact. -/
def applySecCftcMerge [DecidableEq α] (m : List (String × List (CrifRec α))) :
    List (String × List (CrifRec α)) :=
  match m.lookup "CFTC", m.lookup "SEC" with
  | some cftc, some _ =>
      m.map (fun p => if p.1 = "SEC" then (p.1, mergeCFTCIntoSEC p.2 cftc) else p)
  | _, _ => m

/-! ## Winning-regulation selection (constructor, lines 181-217)

The margins compared here are the `(ProductClass::All, RiskClass::All,
MarginType::All, "All")` entries of each regulation's `SimmResults`.  The
comparison logic is embedded exactly: the running maximum is seeded with
`std::numeric_limits<Real>::min() = 2^-1022`, and candidates are collected
with `QuantLib::close_enough` (absolute/relative tolerance `42 * 2^-52`). -/

/-- `QL_EPSILON * 42`, the default tolerance of `QuantLib::close_enough`. -/
def ceTol : ℚ := 42 * (1 / 2 ^ 52)

/-- `std::numeric_limits<Real>::min()`, the smallest positive normalised
    double, used to seed the running winning margin. -/
def dblMin : ℚ := 1 / 2 ^ 1022

/-- `QuantLib::close_enough(x, y)` with the default `n = 42`. -/
def closeEnough (x y : ℚ) : Bool :=
  if x = y then true
  else if x * y = 0 then decide (|x - y| < ceTol ^ 2)
  else decide (|x - y| ≤ ceTol * |x|) || decide (|x - y| ≤ ceTol * |y|)

/-- The fold computing `winningMargin` (lines 188-196): running maximum over
    the regulations' overall margins, seeded with `dblMin`. -/
def winningMarginOf (ms : List (String × ℚ)) : ℚ :=
  ms.foldl (fun w p => if p.2 > w then p.2 else w) dblMin

/-- The winning-regulation candidates (lines 199-203): all regulations whose
    margin is `close_enough` to the winning margin. -/
def winnersOf (ms : List (String × ℚ)) : List String :=
  (ms.filter (fun p => closeEnough p.2 (winningMarginOf ms))).map Prod.fst

/-- Modelled from the spec: `getWinningRegulation` (not in `src/`) resolves
    a multi-way tie "via a fixed priority ordering over regulation names
    (deterministic, externally supplied list)": the first name of the
    priority list that is among the candidates wins; if no candidate is
    listed, the first candidate is kept. -/
def getWinningRegulation (priority regs : List String) : Option String :=
  match priority.find? (fun p => regs.contains p) with
  | some r => some r
  | none => regs.head?

/-- The selection (lines 207-209): with more than one candidate the priority
    list decides, otherwise `winningRegulations.at(0)` is taken —
    `vector::at` on an empty candidate list throws, modelled as `none`. -/
def selectWinner (priority : List String) (ms : List (String × ℚ)) : Option String :=
  let ws := winnersOf ms
  if 1 < ws.length then getWinningRegulation priority ws else ws.head?

/-! ## Additional margin: notional-factor add-ons
    (`SimmCalculator::calcAddMargin`, lines 1342-1385) -/

/-- The "Notional" records matching an add-on qualifier: the lookup key is
    `(nettingSetDetails, ProductClass::Empty, RiskType::Notional, qualifier)`
    (line 1354-1355), with `ProductClass::Empty` modelled as `""`. -/
def notionalsFor (recs : List (CrifRec ℚ)) (nsd q : String) : List (CrifRec ℚ) :=
  recs.filter (fun r =>
    r.nettingSet = nsd ∧ r.productClass = "" ∧ r.riskType = RiskType.Notional ∧
    r.qualifier = q)

/-- The "AddOnNotionalFactor" records of a netting set processed by the
    loop (key `(nsd, ProductClass::Empty, RiskType::AddOnNotionalFactor)`). -/
def addOnFactors (recs : List (CrifRec ℚ)) (nsd : String) : List (CrifRec ℚ) :=
  recs.filter (fun r =>
    r.nettingSet = nsd ∧ r.productClass = "" ∧
    r.riskType = RiskType.AddOnNotionalFactor)

/-- One step of the notional-factor loop (lines 1351-1384):
    `QL_REQUIRE(count < 2)` aborts when two or more Notional records match
    (modelled as `Except.error` carrying the qualifier); with exactly one
    match the contribution `notional.amountUsd * factor.amount / 100`
    accumulates, with no match nothing is added. -/
def nfmStep (recs : List (CrifRec ℚ)) (nsd : String) (acc : ℚ) (f : CrifRec ℚ) :
    Except String ℚ :=
  if 2 ≤ (notionalsFor recs nsd f.qualifier).length then Except.error f.qualifier
  else
    match (notionalsFor recs nsd f.qualifier).head? with
    | some n => Except.ok (acc + n.amountUsd * f.amount / 100)
    | none => Except.ok acc

/-- The notional-factor additional margin: the loop over all
    "AddOnNotionalFactor" records of the netting set. -/
def notionalFactorMargin (recs : List (CrifRec ℚ)) (nsd : String) : Except String ℚ :=
  (addOnFactors recs nsd).foldlM (nfmStep recs nsd) 0

/-- Sum of `f` over a list, over `ℚ`. -/
def qsum (l : List α) (f : α → ℚ) : ℚ :=
  (l.map f).sum

/-- The margin contribution of one add-on factor record:
    `notional.amountUsd * factor.amount / 100` with a unique matching
    Notional record, `0` with none. -/
def notionalContribution (recs : List (CrifRec ℚ)) (nsd : String) (f : CrifRec ℚ) : ℚ :=
  match (notionalsFor recs nsd f.qualifier).head? with
  | some n => n.amountUsd * f.amount / 100
  | none => 0

/-! ## Margin calculators

All margin calculators work over `ℝ` (the code uses `QuantLib::Real`); the
configuration (`SimmConfiguration`) is a record of lookup functions.  Each
calculator receives the list of net records already restricted to the
`(nettingSetDetails, productClass)` key (the `equal_range` filtering of the
multi-index container); risk-type and bucket/qualifier restrictions are
performed explicitly by list filters. -/

/-- The read-only SIMM configuration, as used by the calculators.  Function
    arguments mirror the C++ calls; the trailing `String` argument is the
    calculation-currency parameter, `""` where the code omits it. -/
structure SimmCfg where
  weight : RiskType → String → String → String → ℝ
  corr : RiskType → String → String → String → RiskType → String → String → String → String → ℝ
  thr : RiskType → String → ℝ
  cw : RiskType → String → ℝ
  sigmaF : RiskType → String → String → String → ℝ
  hvrF : RiskType → ℝ
  scalingCM : ℝ
  q995 : ℝ
  verGt1_0 : Bool
  verGe2_2 : Bool

/-- Sum of `f` over a list. -/
noncomputable def rsum (l : List α) (f : α → ℝ) : ℝ :=
  (l.map f).sum

/-- The cross-term accumulation pattern of the calculators: for every
    element, a term against every earlier element
    (`for itInner = begin; itInner != itOuter`), the later element being
    the outer one. -/
noncomputable def crossSum (f : α → α → ℝ) : List α → ℝ
  | [] => 0
  | x :: xs => rsum xs (fun y => f y x) + crossSum f xs

/-- `S_b = max(min(sum, k), -k)`, the clamped weighted-sensitivity sum. -/
noncomputable def clamp (s k : ℝ) : ℝ :=
  max (min s k) (-k)

/-- `SimmCalculator::lambda`: `(q² − 1)(1 + θ) − θ`, with `q` the
    99.5th-percentile standard-normal quantile.  The quantile is an
    irrational constant fixed by the code (via boost); it is passed
    explicitly so that both the embedding and the formulas of the claims
    use one and the same value. -/
noncomputable def lambdaOf (q θ : ℝ) : ℝ :=
  (q * q - 1) * (1 + θ) - θ

/-- The minimum of a list of strings — `*std::set<string>::begin()`, the
    representative qualifier picked for inter-bucket correlations. -/
def minQual : List String → String
  | [] => ""
  | x :: xs => xs.foldl min x

/-! ### The generic Delta/Vega calculator (`SimmCalculator::margin`,
    lines 924-1105) -/

/-- Risk_FX records in the calculation currency are excluded entirely
    (lines 975-983, 1004-1012, 1025-1033). -/
def isFxCcyExcluded (rt : RiskType) (calcCcy : String) (r : CrifRec ℝ) : Bool :=
  rt = RiskType.FX ∧ r.qualifier = calcCcy

/-- The records of one bucket. -/
def bSlice (recs : List (CrifRec ℝ)) (b : String) : List (CrifRec ℝ) :=
  recs.filter (fun r => r.bucket = b)

/-- The records of one bucket that take part in the margin sums (the
    excluded calculation-currency FX records removed). -/
def bEff (rt : RiskType) (calcCcy : String) (recs : List (CrifRec ℝ)) (b : String) :
    List (CrifRec ℝ) :=
  (bSlice recs b).filter (fun r => ¬ isFxCcyExcluded rt calcCcy r)

/-- The bucket keys, in iteration order. -/
def keysOf (recs : List (CrifRec ℝ)) : List String :=
  firstDedup (recs.map (fun r => r.bucket))

/-- The non-residual bucket keys (the "Residual" entry is erased before
    cross-bucket aggregation, lines 1060-1063). -/
def nonResKeys (recs : List (CrifRec ℝ)) : List String :=
  (keysOf recs).filter (fun b => b ≠ "Residual")

/-- Concentration risk `CR_k` of a qualifier inside a bucket (lines
    985-997): the qualifier's amounts (times sigma times HVR) are summed,
    divided by the concentration threshold, and `max(1, sqrt(|…|))` is
    taken. -/
noncomputable def concRisk (cfg : SimmCfg) (rt : RiskType) (calcCcy : String)
    (recs : List (CrifRec ℝ)) (b q : String) : ℝ :=
  max 1 (Real.sqrt
    |rsum ((bSlice recs b).filter (fun r => r.qualifier = q))
        (fun r => r.amountUsd * cfg.sigmaF rt r.qualifier r.label1 calcCcy * cfg.hvrF rt) /
      cfg.thr rt q|)

/-- Weighted sensitivity `WS_k` of a record (line 1018):
    `RW · (amountUsd · σ · HVR) · CR_k`, with `CR` looked up in the
    concentration-risk map of the record's bucket `b`. -/
noncomputable def wsOf (cfg : SimmCfg) (rt : RiskType) (calcCcy : String)
    (recs : List (CrifRec ℝ)) (b : String) (r : CrifRec ℝ) : ℝ :=
  cfg.weight rt r.qualifier r.label1 calcCcy *
    (r.amountUsd * cfg.sigmaF rt r.qualifier r.label1 calcCcy * cfg.hvrF rt) *
    concRisk cfg rt calcCcy recs b r.qualifier

/-- `f_{k,l} = min(CR_k, CR_l) / max(CR_k, CR_l)` (lines 1038-1040). -/
noncomputable def fConc (cfg : SimmCfg) (rt : RiskType) (calcCcy : String)
    (recs : List (CrifRec ℝ)) (b : String) (o i : CrifRec ℝ) : ℝ :=
  min (concRisk cfg rt calcCcy recs b o.qualifier) (concRisk cfg rt calcCcy recs b i.qualifier) /
    max (concRisk cfg rt calcCcy recs b o.qualifier) (concRisk cfg rt calcCcy recs b i.qualifier)

/-- The within-bucket accumulation for `K_b` before the final square root
    (lines 1002-1047): diagonal terms plus `2 ρ f WS_o WS_i` cross terms. -/
noncomputable def kSq (cfg : SimmCfg) (rt : RiskType) (calcCcy : String)
    (recs : List (CrifRec ℝ)) (b : String) : ℝ :=
  rsum (bEff rt calcCcy recs b) (fun r => wsOf cfg rt calcCcy recs b r ^ 2) +
    crossSum
      (fun o i =>
        2 * cfg.corr rt o.qualifier o.label1 o.label2 rt i.qualifier i.label1 i.label2 calcCcy *
          fConc cfg rt calcCcy recs b o i *
          wsOf cfg rt calcCcy recs b o * wsOf cfg rt calcCcy recs b i)
      (bEff rt calcCcy recs b)

/-- Bucket margin `K_b = sqrt(max(…, 0))` (line 1054). -/
noncomputable def kB (cfg : SimmCfg) (rt : RiskType) (calcCcy : String)
    (recs : List (CrifRec ℝ)) (b : String) : ℝ :=
  Real.sqrt (max (kSq cfg rt calcCcy recs b) 0)

/-- The weighted-sensitivity sum of a bucket (line 1020). -/
noncomputable def sumWS (cfg : SimmCfg) (rt : RiskType) (calcCcy : String)
    (recs : List (CrifRec ℝ)) (b : String) : ℝ :=
  rsum (bEff rt calcCcy recs b) (wsOf cfg rt calcCcy recs b)

/-- `K_residual` (lines 1059-1063): the margin of the "Residual" bucket if
    present, else zero. -/
noncomputable def kResidual (cfg : SimmCfg) (rt : RiskType) (calcCcy : String)
    (recs : List (CrifRec ℝ)) : ℝ :=
  if "Residual" ∈ keysOf recs then kB cfg rt calcCcy recs "Residual" else 0

/-- The representative qualifier of a bucket used for inter-bucket
    correlation: `*buckets.at(b).begin()`, the minimal qualifier of the
    bucket (the bucket's qualifier set is built from all records of the
    bucket, lines 944-948, the excluded FX records included). -/
def repQual (recs : List (CrifRec ℝ)) (b : String) : String :=
  minQual ((bSlice recs b).map (fun r => r.qualifier))

/-- Inter-bucket correlation `γ(b,c)` (lines 1079-1084), looked up on the
    representative qualifiers. -/
noncomputable def gammaB (cfg : SimmCfg) (rt : RiskType) (calcCcy : String)
    (recs : List (CrifRec ℝ)) (bo bi : String) : ℝ :=
  cfg.corr rt (repQual recs bo) "" "" rt (repQual recs bi) "" "" calcCcy

/-- The clamped sum `S_b` (line 1073). -/
noncomputable def sB (cfg : SimmCfg) (rt : RiskType) (calcCcy : String)
    (recs : List (CrifRec ℝ)) (b : String) : ℝ :=
  clamp (sumWS cfg rt calcCcy recs b) (kB cfg rt calcCcy recs b)

/-- The cross-bucket accumulation over non-residual buckets (lines
    1066-1087). -/
noncomputable def interSq (cfg : SimmCfg) (rt : RiskType) (calcCcy : String)
    (recs : List (CrifRec ℝ)) : ℝ :=
  rsum (nonResKeys recs) (fun b => kB cfg rt calcCcy recs b ^ 2) +
    crossSum
      (fun bo bi =>
        2 * sB cfg rt calcCcy recs bo * sB cfg rt calcCcy recs bi *
          gammaB cfg rt calcCcy recs bo bi)
      (nonResKeys recs)

/-- The total margin: `sqrt(max(…, 0))` plus the residual component added
    back additively (lines 1088-1091). -/
noncomputable def marginAll (cfg : SimmCfg) (rt : RiskType) (calcCcy : String)
    (recs : List (CrifRec ℝ)) : ℝ :=
  Real.sqrt (max (interSq cfg rt calcCcy recs) 0) + kResidual cfg rt calcCcy recs

/-- The qualifiers appearing in the per-qualifier FX breakdown (the
    excluded calculation-currency records never reach it, line 1049). -/
def fxQuals (rt : RiskType) (calcCcy : String) (recs : List (CrifRec ℝ)) : List String :=
  firstDedup
    ((recs.filter (fun r => ¬ isFxCcyExcluded rt calcCcy r)).map (fun r => r.qualifier))

/-- The per-qualifier accumulation of weighted sensitivities for the FX
    risk class (line 1050), before the absolute value of line 1101. -/
noncomputable def fxEntry (cfg : SimmCfg) (rt : RiskType) (calcCcy : String)
    (recs : List (CrifRec ℝ)) (q : String) : ℝ :=
  rsum (recs.filter (fun r => ¬ isFxCcyExcluded rt calcCcy r ∧ r.qualifier = q))
    (fun r => wsOf cfg rt calcCcy recs r.bucket r)

open Classical in
/-- The bucket-margin map returned by `SimmCalculator::margin` (the first
    component of its result): per-qualifier absolute entries for the FX
    risk class, per-bucket `K_b` entries otherwise, a "Residual" entry when
    the residual margin is non-zero, and the "All" total. -/
noncomputable def marginMap (cfg : SimmCfg) (rt : RiskType) (calcCcy : String)
    (recs : List (CrifRec ℝ)) : List (String × ℝ) :=
  if rt = RiskType.FX ∨ rt = RiskType.FXVol then
    (fxQuals rt calcCcy recs).map (fun q => (q, |fxEntry cfg rt calcCcy recs q|)) ++
      (if kResidual cfg rt calcCcy recs = 0 then []
       else [("Residual", |kResidual cfg rt calcCcy recs|)]) ++
      [("All", marginAll cfg rt calcCcy recs)]
  else
    (if kResidual cfg rt calcCcy recs = 0 then []
     else [("Residual", kResidual cfg rt calcCcy recs)]) ++
      (nonResKeys recs).map (fun b => (b, kB cfg rt calcCcy recs b)) ++
      [("All", marginAll cfg rt calcCcy recs)]

/-! ### The generic curvature calculator (`SimmCalculator::curvatureMargin`,
    lines 1107-1271) -/

/-- Weighted curvature sensitivity `CVR_{ik}` of a record (line 1165):
    `SF(t) · ((amountUsd · multiplier) · σ)`, with `multiplier = ±1` by
    side. -/
noncomputable def cvrRaw (cfg : SimmCfg) (rt : RiskType) (calcCcy : String) (mult : ℝ)
    (r : CrifRec ℝ) : ℝ :=
  cfg.cw rt r.label1 * ((r.amountUsd * mult) * cfg.sigmaF rt r.qualifier r.label1 calcCcy)

/-- The version-gated outer sensitivity (lines 1166-1171): for SIMM ≥ 2.2
    the Equity-volatility curvature sensitivity of bucket "12" is forced to
    zero.  The inner (cross-term) sensitivity of line 1186 is not gated. -/
noncomputable def cvrZ (cfg : SimmCfg) (rt : RiskType) (calcCcy : String) (mult : ℝ)
    (r : CrifRec ℝ) : ℝ :=
  if cfg.verGe2_2 = true ∧ r.bucket = "12" ∧ rt = RiskType.EquityVol then 0
  else cvrRaw cfg rt calcCcy mult r

/-- The within-bucket curvature accumulation (lines 1156-1193): diagonal
    `CVR²` terms (gated) plus `2 ρ² CVR_o CVR_i` cross terms, the outer
    factor gated, the inner one not. -/
noncomputable def ckSq (cfg : SimmCfg) (rt : RiskType) (calcCcy : String) (mult : ℝ)
    (recs : List (CrifRec ℝ)) (b : String) : ℝ :=
  rsum (bSlice recs b) (fun r => cvrZ cfg rt calcCcy mult r ^ 2) +
    crossSum
      (fun o i =>
        2 * cfg.corr rt o.qualifier o.label1 o.label2 rt i.qualifier i.label1 i.label2 calcCcy ^ 2 *
          cvrZ cfg rt calcCcy mult o * cvrRaw cfg rt calcCcy mult i)
      (bSlice recs b)

/-- Bucket curvature margin `K_b = sqrt(max(…, 0))` (line 1196). -/
noncomputable def cK (cfg : SimmCfg) (rt : RiskType) (calcCcy : String) (mult : ℝ)
    (recs : List (CrifRec ℝ)) (b : String) : ℝ :=
  Real.sqrt (max (ckSq cfg rt calcCcy mult recs b) 0)

/-- The signed curvature sum of a bucket, `Σ CVR_{b,k}` (line 1173). -/
noncomputable def cSumWS (cfg : SimmCfg) (rt : RiskType) (calcCcy : String) (mult : ℝ)
    (recs : List (CrifRec ℝ)) (b : String) : ℝ :=
  rsum (bSlice recs b) (cvrZ cfg rt calcCcy mult)

/-- The per-qualifier accumulation feeding the bucket's absolute sum
    (line 1174): signed, or absolute per record when `rfLabels` is set. -/
noncomputable def cAbsQual (cfg : SimmCfg) (rt : RiskType) (calcCcy : String) (mult : ℝ)
    (rfLabels : Bool) (recs : List (CrifRec ℝ)) (b q : String) : ℝ :=
  rsum ((bSlice recs b).filter (fun r => r.qualifier = q))
    (fun r => if rfLabels then |cvrZ cfg rt calcCcy mult r| else cvrZ cfg rt calcCcy mult r)

/-- The qualifiers of a bucket, in iteration order. -/
def qualsOfBucket (recs : List (CrifRec ℝ)) (b : String) : List String :=
  firstDedup ((bSlice recs b).map (fun r => r.qualifier))

/-- The bucket-level absolute sensitivity `Σ_q |…|` (lines 1199-1202). -/
noncomputable def cSumAbs (cfg : SimmCfg) (rt : RiskType) (calcCcy : String) (mult : ℝ)
    (rfLabels : Bool) (recs : List (CrifRec ℝ)) (b : String) : ℝ :=
  rsum (qualsOfBucket recs b) (fun q => |cAbsQual cfg rt calcCcy mult rfLabels recs b q|)

/-- `K_residual` of the curvature calculator (lines 1207-1218). -/
noncomputable def cResK (cfg : SimmCfg) (rt : RiskType) (calcCcy : String) (mult : ℝ)
    (recs : List (CrifRec ℝ)) : ℝ :=
  if "Residual" ∈ keysOf recs then cK cfg rt calcCcy mult recs "Residual" else 0

/-- The residual signed sum (line 1212). -/
noncomputable def cResSum (cfg : SimmCfg) (rt : RiskType) (calcCcy : String) (mult : ℝ)
    (recs : List (CrifRec ℝ)) : ℝ :=
  if "Residual" ∈ keysOf recs then cSumWS cfg rt calcCcy mult recs "Residual" else 0

/-- The residual absolute sum (line 1213). -/
noncomputable def cResAbs (cfg : SimmCfg) (rt : RiskType) (calcCcy : String) (mult : ℝ)
    (rfLabels : Bool) (recs : List (CrifRec ℝ)) : ℝ :=
  if "Residual" ∈ keysOf recs then cSumAbs cfg rt calcCcy mult rfLabels recs "Residual" else 0

/-- `ΣWS` over the non-residual buckets (line 1225). -/
noncomputable def cSumSensis (cfg : SimmCfg) (rt : RiskType) (calcCcy : String) (mult : ℝ)
    (recs : List (CrifRec ℝ)) : ℝ :=
  rsum (nonResKeys recs) (cSumWS cfg rt calcCcy mult recs)

/-- `Σ|WS|` over the non-residual buckets (line 1226). -/
noncomputable def cSumAbsSensis (cfg : SimmCfg) (rt : RiskType) (calcCcy : String) (mult : ℝ)
    (rfLabels : Bool) (recs : List (CrifRec ℝ)) : ℝ :=
  rsum (nonResKeys recs) (cSumAbs cfg rt calcCcy mult rfLabels recs)

/-- The clamped bucket sum of the curvature aggregation (line 1236). -/
noncomputable def cS (cfg : SimmCfg) (rt : RiskType) (calcCcy : String) (mult : ℝ)
    (recs : List (CrifRec ℝ)) (b : String) : ℝ :=
  clamp (cSumWS cfg rt calcCcy mult recs b) (cK cfg rt calcCcy mult recs b)

/-- The cross-bucket curvature accumulation (lines 1230-1250); the
    inter-bucket correlation enters squared. -/
noncomputable def cInterSq (cfg : SimmCfg) (rt : RiskType) (calcCcy : String) (mult : ℝ)
    (recs : List (CrifRec ℝ)) : ℝ :=
  rsum (nonResKeys recs) (fun b => cK cfg rt calcCcy mult recs b ^ 2) +
    crossSum
      (fun bo bi =>
        2 * cS cfg rt calcCcy mult recs bo * cS cfg rt calcCcy mult recs bi *
          gammaB cfg rt calcCcy recs bo bi ^ 2)
      (nonResKeys recs)

open Classical in
/-- The non-residual part of the curvature total (lines 1228-1252):
    `max(ΣWS + λ(θ)·sqrt(max(…,0)), 0)` with `θ = min(ΣWS/Σ|WS|, 0)`, and
    `0` when `Σ|WS|` vanishes.  No scaling factor is applied here. -/
noncomputable def cMainMargin (cfg : SimmCfg) (rt : RiskType) (calcCcy : String) (mult : ℝ)
    (rfLabels : Bool) (recs : List (CrifRec ℝ)) : ℝ :=
  if cSumAbsSensis cfg rt calcCcy mult rfLabels recs = 0 then 0
  else
    max
      (cSumSensis cfg rt calcCcy mult recs +
        lambdaOf cfg.q995
            (min (cSumSensis cfg rt calcCcy mult recs /
              cSumAbsSensis cfg rt calcCcy mult rfLabels recs) 0) *
          Real.sqrt (max (cInterSq cfg rt calcCcy mult recs) 0))
      0

open Classical in
/-- The residual part of the curvature total (lines 1255-1259), with its
    own `θ`/`λ`, or `0` when the residual absolute sum vanishes. -/
noncomputable def cResMargin (cfg : SimmCfg) (rt : RiskType) (calcCcy : String) (mult : ℝ)
    (rfLabels : Bool) (recs : List (CrifRec ℝ)) : ℝ :=
  if cResAbs cfg rt calcCcy mult rfLabels recs = 0 then 0
  else
    max
      (cResSum cfg rt calcCcy mult recs +
        lambdaOf cfg.q995
            (min (cResSum cfg rt calcCcy mult recs /
              cResAbs cfg rt calcCcy mult rfLabels recs) 0) *
          cResK cfg rt calcCcy mult recs)
      0

/-- The "All" entry of the curvature calculator: non-residual part plus
    residual part, added additively. -/
noncomputable def curvAll (cfg : SimmCfg) (rt : RiskType) (calcCcy : String) (mult : ℝ)
    (rfLabels : Bool) (recs : List (CrifRec ℝ)) : ℝ :=
  cMainMargin cfg rt calcCcy mult rfLabels recs + cResMargin cfg rt calcCcy mult rfLabels recs

/-- The per-qualifier FX breakdown of the curvature calculator (line 1192,
    no exclusion here), before the absolute value of line 1267. -/
noncomputable def cFxEntry (cfg : SimmCfg) (rt : RiskType) (calcCcy : String) (mult : ℝ)
    (recs : List (CrifRec ℝ)) (q : String) : ℝ :=
  rsum (recs.filter (fun r => r.qualifier = q)) (cvrZ cfg rt calcCcy mult)

/-- The qualifiers of all records, in iteration order. -/
def allQuals (recs : List (CrifRec ℝ)) : List String :=
  firstDedup (recs.map (fun r => r.qualifier))

open Classical in
/-- The bucket-margin map returned by `SimmCalculator::curvatureMargin`:
    per-qualifier absolute entries for the FX risk class, per-bucket `K_b`
    entries otherwise, a recomputed "Residual" entry when the residual
    absolute sum is non-zero, and the "All" total. -/
noncomputable def curvMap (cfg : SimmCfg) (rt : RiskType) (calcCcy : String) (mult : ℝ)
    (rfLabels : Bool) (recs : List (CrifRec ℝ)) : List (String × ℝ) :=
  if rt = RiskType.FX ∨ rt = RiskType.FXVol then
    (allQuals recs).map (fun q => (q, |cFxEntry cfg rt calcCcy mult recs q|)) ++
      [("All", curvAll cfg rt calcCcy mult rfLabels recs)]
  else
    (nonResKeys recs).map (fun b => (b, cK cfg rt calcCcy mult recs b)) ++
      (if cResAbs cfg rt calcCcy mult rfLabels recs = 0 then []
       else [("Residual", cResMargin cfg rt calcCcy mult rfLabels recs)]) ++
      [("All", curvAll cfg rt calcCcy mult rfLabels recs)]

/-! ### The Interest-Rate delta calculator (`SimmCalculator::irDeltaMargin`,
    lines 419-611) -/

/-- The IRCurve records of one currency. -/
def irSlice (recs : List (CrifRec ℝ)) (q : String) : List (CrifRec ℝ) :=
  recs.filter (fun r => r.riskType = RiskType.IRCurve ∧ r.qualifier = q)

/-- The Inflation records of one currency (the code expects zero or one and
    uses `find`, i.e. the first). -/
def inflSlice (recs : List (CrifRec ℝ)) (q : String) : List (CrifRec ℝ) :=
  recs.filter (fun r => r.riskType = RiskType.Inflation ∧ r.qualifier = q)

/-- The XCcyBasis records of one currency (zero or one expected). -/
def xccySlice (recs : List (CrifRec ℝ)) (q : String) : List (CrifRec ℝ) :=
  recs.filter (fun r => r.riskType = RiskType.XCcyBasis ∧ r.qualifier = q)

/-- The currencies of the IR delta calculator (lines 432-457): qualifiers
    of IRCurve, XCcyBasis and Inflation records. -/
def irQuals (recs : List (CrifRec ℝ)) : List String :=
  firstDedup
    (((recs.filter (fun r => r.riskType = RiskType.IRCurve)).map (fun r => r.qualifier)) ++
      ((recs.filter (fun r => r.riskType = RiskType.XCcyBasis)).map (fun r => r.qualifier)) ++
      ((recs.filter (fun r => r.riskType = RiskType.Inflation)).map (fun r => r.qualifier)))

/-- IR concentration risk of a currency (lines 494-504): IRCurve amounts
    plus the Inflation amount (XCcyBasis not included), over the IRCurve
    threshold. -/
noncomputable def irCR (cfg : SimmCfg) (recs : List (CrifRec ℝ)) (q : String) : ℝ :=
  max 1 (Real.sqrt
    |(rsum (irSlice recs q) (fun r => r.amountUsd) +
        (match (inflSlice recs q).head? with
         | some r => r.amountUsd
         | none => 0)) /
      cfg.thr RiskType.IRCurve q|)

/-- Weighted IRCurve sensitivity (lines 509-511):
    `RW · amountUsd · CR_b` (no sigma/HVR here). -/
noncomputable def irWs (cfg : SimmCfg) (recs : List (CrifRec ℝ)) (q : String)
    (r : CrifRec ℝ) : ℝ :=
  cfg.weight RiskType.IRCurve q r.label1 "" * r.amountUsd * irCR cfg recs q

/-- Weighted Inflation sensitivity (lines 533-537), scaled by the
    currency's concentration risk; zero when no Inflation record exists. -/
noncomputable def irWsInfl (cfg : SimmCfg) (recs : List (CrifRec ℝ)) (q : String) : ℝ :=
  match (inflSlice recs q).head? with
  | some r => cfg.weight RiskType.Inflation q r.label1 "" * r.amountUsd * irCR cfg recs q
  | none => 0

/-- Weighted XCcyBasis sensitivity (lines 555-559): `RW · amountUsd`, not
    scaled by concentration risk; zero when no XCcyBasis record exists. -/
noncomputable def irWsXccy (cfg : SimmCfg) (recs : List (CrifRec ℝ)) (q : String) : ℝ :=
  match (xccySlice recs q).head? with
  | some r => cfg.weight RiskType.XCcyBasis q r.label1 "" * r.amountUsd
  | none => 0

/-- The per-currency accumulation for the IR delta `K_b` before the square
    root (lines 507-582): IRCurve diagonal and cross terms (sub-curve and
    tenor correlations), the Inflation diagonal and Inflation-IRCurve cross
    terms, and the XCcyBasis diagonal with its IRCurve and Inflation cross
    terms (the IRCurve weight of the XCcyBasis cross terms is looked up
    with the calculation currency, line 570). -/
noncomputable def irKSq (cfg : SimmCfg) (calcCcy : String) (recs : List (CrifRec ℝ))
    (q : String) : ℝ :=
  rsum (irSlice recs q) (fun r => irWs cfg recs q r ^ 2) +
    crossSum
      (fun o i =>
        2 * cfg.corr RiskType.IRCurve q "" o.label2 RiskType.IRCurve q "" i.label2 "" *
          cfg.corr RiskType.IRCurve q o.label1 "" RiskType.IRCurve q i.label1 "" "" *
          irWs cfg recs q o * irWs cfg recs q i)
      (irSlice recs q) +
    (irWsInfl cfg recs q ^ 2 +
      rsum (irSlice recs q)
        (fun r =>
          2 * cfg.corr RiskType.IRCurve q "" "" RiskType.Inflation q "" "" "" *
            irWs cfg recs q r * irWsInfl cfg recs q)) +
    (irWsXccy cfg recs q ^ 2 +
      rsum (irSlice recs q)
        (fun r =>
          2 * cfg.corr RiskType.IRCurve q "" "" RiskType.XCcyBasis q "" "" "" *
            (cfg.weight RiskType.IRCurve q r.label1 calcCcy * r.amountUsd * irCR cfg recs q) *
            irWsXccy cfg recs q) +
      2 * cfg.corr RiskType.Inflation q "" "" RiskType.XCcyBasis q "" "" "" *
        irWsInfl cfg recs q * irWsXccy cfg recs q)

/-- The IR delta margin of one currency, `K_b = sqrt(max(…, 0))`
    (line 585). -/
noncomputable def irK (cfg : SimmCfg) (calcCcy : String) (recs : List (CrifRec ℝ))
    (q : String) : ℝ :=
  Real.sqrt (max (irKSq cfg calcCcy recs q) 0)

/-- The weighted-sensitivity sum of one currency (lines 513, 539, 561). -/
noncomputable def irSumWS (cfg : SimmCfg) (recs : List (CrifRec ℝ)) (q : String) : ℝ :=
  rsum (irSlice recs q) (irWs cfg recs q) + irWsInfl cfg recs q + irWsXccy cfg recs q

/-- The cross-currency aggregation of the IR delta margin (lines 589-603):
    diagonal `K_b²` terms plus `2 S_b S_c ρ g` cross terms with
    `g = min(CR_b, CR_c)/max(CR_b, CR_c)`. -/
noncomputable def irAllSq (cfg : SimmCfg) (calcCcy : String) (recs : List (CrifRec ℝ)) : ℝ :=
  rsum (irQuals recs) (fun q => irK cfg calcCcy recs q ^ 2) +
    crossSum
      (fun qo qi =>
        2 * clamp (irSumWS cfg recs qo) (irK cfg calcCcy recs qo) *
          clamp (irSumWS cfg recs qi) (irK cfg calcCcy recs qi) *
          cfg.corr RiskType.IRCurve qo "" "" RiskType.IRCurve qi "" "" "" *
          (min (irCR cfg recs qo) (irCR cfg recs qi) /
            max (irCR cfg recs qo) (irCR cfg recs qi)))
      (irQuals recs)

/-- The IR delta total, `sqrt(max(…, 0))` (line 604). -/
noncomputable def irDeltaAll (cfg : SimmCfg) (calcCcy : String)
    (recs : List (CrifRec ℝ)) : ℝ :=
  Real.sqrt (max (irAllSq cfg calcCcy recs) 0)

/-- The bucket-margin map of `irDeltaMargin` (lines 606-608): per-currency
    `K_b` entries plus the "All" total. -/
noncomputable def irDeltaMap (cfg : SimmCfg) (calcCcy : String)
    (recs : List (CrifRec ℝ)) : List (String × ℝ) :=
  (irQuals recs).map (fun q => (q, irK cfg calcCcy recs q)) ++
    [("All", irDeltaAll cfg calcCcy recs)]

/-! ### The Interest-Rate vega calculator (`SimmCalculator::irVegaMargin`,
    lines 613-764) -/

/-- The IRVol records of one currency. -/
def irVolSlice (recs : List (CrifRec ℝ)) (q : String) : List (CrifRec ℝ) :=
  recs.filter (fun r => r.riskType = RiskType.IRVol ∧ r.qualifier = q)

/-- The InflationVol records of one currency. -/
def infVolSlice (recs : List (CrifRec ℝ)) (q : String) : List (CrifRec ℝ) :=
  recs.filter (fun r => r.riskType = RiskType.InflationVol ∧ r.qualifier = q)

/-- The currencies of the IR vega/curvature calculators (qualifiers of
    IRVol and InflationVol records, lines 628-643). -/
def irVolQuals (recs : List (CrifRec ℝ)) : List String :=
  firstDedup
    (((recs.filter (fun r => r.riskType = RiskType.IRVol)).map (fun r => r.qualifier)) ++
      ((recs.filter (fun r => r.riskType = RiskType.InflationVol)).map (fun r => r.qualifier)))

/-- IR vega concentration risk of a currency (lines 667-677): IRVol plus
    InflationVol amounts over the IRVol threshold. -/
noncomputable def irVegaCR (cfg : SimmCfg) (recs : List (CrifRec ℝ)) (q : String) : ℝ :=
  max 1 (Real.sqrt
    |(rsum (irVolSlice recs q) (fun r => r.amountUsd) +
        rsum (infVolSlice recs q) (fun r => r.amountUsd)) /
      cfg.thr RiskType.IRVol q|)

/-- Weighted IRVol sensitivity (lines 683-685). -/
noncomputable def irVegaWs (cfg : SimmCfg) (recs : List (CrifRec ℝ)) (q : String)
    (r : CrifRec ℝ) : ℝ :=
  cfg.weight RiskType.IRVol q r.label1 "" * r.amountUsd * irVegaCR cfg recs q

/-- Weighted InflationVol sensitivity (lines 707-709). -/
noncomputable def infVolWs (cfg : SimmCfg) (recs : List (CrifRec ℝ)) (q : String)
    (r : CrifRec ℝ) : ℝ :=
  cfg.weight RiskType.InflationVol q r.label1 "" * r.amountUsd * irVegaCR cfg recs q

/-- The per-currency accumulation of the IR vega margin (lines 681-735):
    IRVol diagonal and cross terms, then for each InflationVol record its
    diagonal term, cross terms against every IRVol record, and cross terms
    against the earlier InflationVol records. -/
noncomputable def irVegaKSq (cfg : SimmCfg) (recs : List (CrifRec ℝ)) (q : String) : ℝ :=
  rsum (irVolSlice recs q) (fun r => irVegaWs cfg recs q r ^ 2) +
    crossSum
      (fun o i =>
        2 * cfg.corr RiskType.IRVol q o.label1 "" RiskType.IRVol q i.label1 "" "" *
          irVegaWs cfg recs q o * irVegaWs cfg recs q i)
      (irVolSlice recs q) +
    (rsum (infVolSlice recs q)
        (fun o =>
          infVolWs cfg recs q o ^ 2 +
            rsum (irVolSlice recs q)
              (fun i =>
                2 * cfg.corr RiskType.InflationVol q o.label1 "" RiskType.IRVol q i.label1 "" "" *
                  infVolWs cfg recs q o * irVegaWs cfg recs q i)) +
      crossSum
        (fun o i =>
          2 * cfg.corr RiskType.InflationVol q o.label1 "" RiskType.InflationVol q i.label1 "" "" *
            infVolWs cfg recs q o * infVolWs cfg recs q i)
        (infVolSlice recs q))

/-- The IR vega margin of one currency, `K_b = sqrt(max(…, 0))`
    (line 738). -/
noncomputable def irVegaK (cfg : SimmCfg) (recs : List (CrifRec ℝ)) (q : String) : ℝ :=
  Real.sqrt (max (irVegaKSq cfg recs q) 0)

/-- The weighted-sensitivity sum of one currency (lines 687, 711). -/
noncomputable def irVegaSumWS (cfg : SimmCfg) (recs : List (CrifRec ℝ)) (q : String) : ℝ :=
  rsum (irVolSlice recs q) (irVegaWs cfg recs q) +
    rsum (infVolSlice recs q) (infVolWs cfg recs q)

/-- The cross-currency aggregation of the IR vega margin (lines 742-756);
    the final correlation lookup carries the calculation currency
    (line 753). -/
noncomputable def irVegaAllSq (cfg : SimmCfg) (calcCcy : String)
    (recs : List (CrifRec ℝ)) : ℝ :=
  rsum (irVolQuals recs) (fun q => irVegaK cfg recs q ^ 2) +
    crossSum
      (fun qo qi =>
        2 * clamp (irVegaSumWS cfg recs qo) (irVegaK cfg recs qo) *
          clamp (irVegaSumWS cfg recs qi) (irVegaK cfg recs qi) *
          cfg.corr RiskType.IRVol qo "" "" RiskType.IRVol qi "" "" calcCcy *
          (min (irVegaCR cfg recs qo) (irVegaCR cfg recs qi) /
            max (irVegaCR cfg recs qo) (irVegaCR cfg recs qi)))
      (irVolQuals recs)

/-- The IR vega total (line 757). -/
noncomputable def irVegaAll (cfg : SimmCfg) (calcCcy : String)
    (recs : List (CrifRec ℝ)) : ℝ :=
  Real.sqrt (max (irVegaAllSq cfg calcCcy recs) 0)

/-- The bucket-margin map of `irVegaMargin` (lines 759-761). -/
noncomputable def irVegaMap (cfg : SimmCfg) (calcCcy : String)
    (recs : List (CrifRec ℝ)) : List (String × ℝ) :=
  (irVolQuals recs).map (fun q => (q, irVegaK cfg recs q)) ++
    [("All", irVegaAll cfg calcCcy recs)]

/-! ### The Interest-Rate curvature calculator
    (`SimmCalculator::irCurvatureMargin`, lines 766-922) -/

/-- Weighted IRVol curvature sensitivity (lines 830-832):
    `SF(t) · (amountUsd · multiplier)`. -/
noncomputable def irCvWs (cfg : SimmCfg) (mult : ℝ) (r : CrifRec ℝ) : ℝ :=
  cfg.cw RiskType.IRVol r.label1 * (r.amountUsd * mult)

/-- The InflationVol curvature component of one currency (lines 856-861):
    the curvature-weighted InflationVol sensitivities are summed; the
    component only enters for SIMM versions above 1.0. -/
noncomputable def irCvInfWs (cfg : SimmCfg) (mult : ℝ) (recs : List (CrifRec ℝ))
    (q : String) : ℝ :=
  rsum (infVolSlice recs q)
    (fun r => cfg.cw RiskType.InflationVol r.label1 * (r.amountUsd * mult))

/-- The per-currency accumulation of the IR curvature margin (lines
    826-881): IRVol diagonal and squared-correlation cross terms, plus —
    version-gated — the inflation diagonal and inflation-IRVol cross
    terms. -/
noncomputable def irCvKSq (cfg : SimmCfg) (mult : ℝ) (recs : List (CrifRec ℝ))
    (q : String) : ℝ :=
  rsum (irVolSlice recs q) (fun r => irCvWs cfg mult r ^ 2) +
    crossSum
      (fun o i =>
        2 * cfg.corr RiskType.IRVol q o.label1 "" RiskType.IRVol q i.label1 "" "" ^ 2 *
          irCvWs cfg mult o * irCvWs cfg mult i)
      (irVolSlice recs q) +
    (if cfg.verGt1_0 then
      irCvInfWs cfg mult recs q ^ 2 +
        rsum (irVolSlice recs q)
          (fun r =>
            2 * cfg.corr RiskType.InflationVol q "" "" RiskType.IRVol q r.label1 "" "" ^ 2 *
              irCvInfWs cfg mult recs q * irCvWs cfg mult r)
    else 0)

/-- The IR curvature margin of one currency (line 884). -/
noncomputable def irCvK (cfg : SimmCfg) (mult : ℝ) (recs : List (CrifRec ℝ))
    (q : String) : ℝ :=
  Real.sqrt (max (irCvKSq cfg mult recs q) 0)

/-- The signed curvature sum of one currency (lines 834, 863). -/
noncomputable def irCvSumWS (cfg : SimmCfg) (mult : ℝ) (recs : List (CrifRec ℝ))
    (q : String) : ℝ :=
  rsum (irVolSlice recs q) (irCvWs cfg mult) +
    (if cfg.verGt1_0 then irCvInfWs cfg mult recs q else 0)

/-- The global signed curvature sum `sumWs` (lines 835, 864). -/
noncomputable def irCvSumWsAll (cfg : SimmCfg) (mult : ℝ) (recs : List (CrifRec ℝ)) : ℝ :=
  rsum (irVolQuals recs) (irCvSumWS cfg mult recs)

/-- The global absolute curvature sum `sumAbsWs` (lines 836, 865): absolute
    values per IRVol record plus — version-gated — the absolute value of
    each currency's summed inflation component. -/
noncomputable def irCvSumAbsWs (cfg : SimmCfg) (mult : ℝ) (recs : List (CrifRec ℝ)) : ℝ :=
  rsum (irVolQuals recs)
    (fun q =>
      rsum (irVolSlice recs q) (fun r => |irCvWs cfg mult r|) +
        (if cfg.verGt1_0 then |irCvInfWs cfg mult recs q| else 0))

/-- The cross-currency accumulation of the IR curvature margin (lines
    896-910); the correlation enters squared. -/
noncomputable def irCvInterSq (cfg : SimmCfg) (mult : ℝ) (recs : List (CrifRec ℝ)) : ℝ :=
  rsum (irVolQuals recs) (fun q => irCvK cfg mult recs q ^ 2) +
    crossSum
      (fun qo qi =>
        2 * clamp (irCvSumWS cfg mult recs qo) (irCvK cfg mult recs qo) *
          clamp (irCvSumWS cfg mult recs qi) (irCvK cfg mult recs qi) *
          cfg.corr RiskType.IRVol qo "" "" RiskType.IRVol qi "" "" "" ^ 2)
      (irVolQuals recs)

open Classical in
/-- The "All" entry of `irCurvatureMargin`: `0` when the absolute sum
    vanishes (lines 887-891), else
    `scaling · max(sumWs + λ(θ)·sqrt(max(…,0)), 0)` (lines 893-919) —
    this is the only place the curvature scaling factor is applied. -/
noncomputable def irCvAll (cfg : SimmCfg) (mult : ℝ) (recs : List (CrifRec ℝ)) : ℝ :=
  if irCvSumAbsWs cfg mult recs = 0 then 0
  else
    cfg.scalingCM *
      max
        (irCvSumWsAll cfg mult recs +
          lambdaOf cfg.q995 (min (irCvSumWsAll cfg mult recs / irCvSumAbsWs cfg mult recs) 0) *
            Real.sqrt (max (irCvInterSq cfg mult recs) 0))
        0

open Classical in
/-- The bucket-margin map of `irCurvatureMargin`: per-currency entries only
    when the absolute-sum early return is not taken. -/
noncomputable def irCvMap (cfg : SimmCfg) (mult : ℝ) (recs : List (CrifRec ℝ)) :
    List (String × ℝ) :=
  if irCvSumAbsWs cfg mult recs = 0 then [("All", 0)]
  else
    (irVolQuals recs).map (fun q => (q, irCvK cfg mult recs q)) ++
      [("All", irCvAll cfg mult recs)]

/-! ## Spec-side formulas

The following definitions follow the wording of the specification (and of
the claims), independently of the loop structure of the code; theorems
below compare them with the embedded calculators. -/

/-- Spec formula for the concentration risk, §4.2 step 2:
    `CR_q = max(1, sqrt(|Σ amountUsd·σ·HVR| / threshold))` — the absolute
    value taken of the numerator only. -/
noncomputable def specConcRisk (cfg : SimmCfg) (rt : RiskType) (calcCcy : String)
    (recs : List (CrifRec ℝ)) (b q : String) : ℝ :=
  max 1 (Real.sqrt
    (|rsum ((bSlice recs b).filter (fun r => r.qualifier = q))
        (fun r => r.amountUsd * cfg.sigmaF rt r.qualifier r.label1 calcCcy * cfg.hvrF rt)| /
      cfg.thr rt q))

/-- Spec formula for the total Delta/Vega margin, §4.2 steps 5-6:
    `sqrt(Σ K_b² + Σ γ S_b S_c)` over non-residual buckets plus
    `K_residual` added additively (no clamping of the radicand: over `ℝ`,
    `Real.sqrt` of a negative number is `0`). -/
noncomputable def specMarginAll (cfg : SimmCfg) (rt : RiskType) (calcCcy : String)
    (recs : List (CrifRec ℝ)) : ℝ :=
  Real.sqrt (interSq cfg rt calcCcy recs) + kResidual cfg rt calcCcy recs

/-- The signed curvature sum over the non-residual records, computed
    directly record-wise (the spec's `ΣCVR`). -/
noncomputable def specCurvNonResSum (cfg : SimmCfg) (rt : RiskType) (calcCcy : String)
    (mult : ℝ) (recs : List (CrifRec ℝ)) : ℝ :=
  rsum (recs.filter (fun r => r.bucket ≠ "Residual")) (cvrZ cfg rt calcCcy mult)

/-- The signed curvature sum over the residual records, record-wise. -/
noncomputable def specCurvResSum (cfg : SimmCfg) (rt : RiskType) (calcCcy : String)
    (mult : ℝ) (recs : List (CrifRec ℝ)) : ℝ :=
  rsum (recs.filter (fun r => r.bucket = "Residual")) (cvrZ cfg rt calcCcy mult)

/-- The spec's skew parameter `θ = min(ΣCVR / Σ|CVR|, 0)`. -/
noncomputable def specTheta (s a : ℝ) : ℝ :=
  min (s / a) 0

open Classical in
/-- Spec formula for the curvature total without any scaling:
    `max(ΣCVR + λ(θ)·sqrt(Σ K_b² + cross terms), 0)` for the non-residual
    part plus `max(ΣCVR_res + λ(θ_res)·K_residual, 0)` for the residual
    bucket, each guarded by its absolute sum being non-zero, with the
    record-wise `ΣCVR` sums. -/
noncomputable def specCurvAll (cfg : SimmCfg) (rt : RiskType) (calcCcy : String)
    (mult : ℝ) (rfLabels : Bool) (recs : List (CrifRec ℝ)) : ℝ :=
  (if cSumAbsSensis cfg rt calcCcy mult rfLabels recs = 0 then 0
   else
     max
       (specCurvNonResSum cfg rt calcCcy mult recs +
         lambdaOf cfg.q995
             (specTheta (specCurvNonResSum cfg rt calcCcy mult recs)
               (cSumAbsSensis cfg rt calcCcy mult rfLabels recs)) *
           Real.sqrt (cInterSq cfg rt calcCcy mult recs))
       0) +
    (if cResAbs cfg rt calcCcy mult rfLabels recs = 0 then 0
     else
       max
         (specCurvResSum cfg rt calcCcy mult recs +
           lambdaOf cfg.q995
               (specTheta (specCurvResSum cfg rt calcCcy mult recs)
                 (cResAbs cfg rt calcCcy mult rfLabels recs)) *
             cResK cfg rt calcCcy mult recs)
         0)

/-- The claimed (original) curvature total of C2: the non-residual part
    scaled by the configuration-supplied curvature scaling factor, the
    residual part added additively. -/
noncomputable def specCurvAllScaled (cfg : SimmCfg) (rt : RiskType) (calcCcy : String)
    (mult : ℝ) (rfLabels : Bool) (recs : List (CrifRec ℝ)) : ℝ :=
  cfg.scalingCM * cMainMargin cfg rt calcCcy mult rfLabels recs +
    cResMargin cfg rt calcCcy mult rfLabels recs

/-- The claimed (original) XCcyBasis weighted sensitivity of C4: risk
    weight times amount times the currency's concentration-risk factor. -/
noncomputable def specIrWsXccyClaim (cfg : SimmCfg) (recs : List (CrifRec ℝ))
    (q : String) : ℝ :=
  match (xccySlice recs q).head? with
  | some r => cfg.weight RiskType.XCcyBasis q r.label1 "" * r.amountUsd * irCR cfg recs q
  | none => 0

/-- The per-currency IR delta accumulation as claim C4 states it: as in
    the code but with the XCcyBasis sensitivity scaled by the
    concentration risk. -/
noncomputable def specIrKSqClaim (cfg : SimmCfg) (calcCcy : String)
    (recs : List (CrifRec ℝ)) (q : String) : ℝ :=
  rsum (irSlice recs q) (fun r => irWs cfg recs q r ^ 2) +
    crossSum
      (fun o i =>
        2 * cfg.corr RiskType.IRCurve q "" o.label2 RiskType.IRCurve q "" i.label2 "" *
          cfg.corr RiskType.IRCurve q o.label1 "" RiskType.IRCurve q i.label1 "" "" *
          irWs cfg recs q o * irWs cfg recs q i)
      (irSlice recs q) +
    (irWsInfl cfg recs q ^ 2 +
      rsum (irSlice recs q)
        (fun r =>
          2 * cfg.corr RiskType.IRCurve q "" "" RiskType.Inflation q "" "" "" *
            irWs cfg recs q r * irWsInfl cfg recs q)) +
    (specIrWsXccyClaim cfg recs q ^ 2 +
      rsum (irSlice recs q)
        (fun r =>
          2 * cfg.corr RiskType.IRCurve q "" "" RiskType.XCcyBasis q "" "" "" *
            (cfg.weight RiskType.IRCurve q r.label1 calcCcy * r.amountUsd * irCR cfg recs q) *
            specIrWsXccyClaim cfg recs q) +
      2 * cfg.corr RiskType.Inflation q "" "" RiskType.XCcyBasis q "" "" "" *
        irWsInfl cfg recs q * specIrWsXccyClaim cfg recs q)

/-- The claimed per-currency IR delta margin of C4. -/
noncomputable def specIrKClaim (cfg : SimmCfg) (calcCcy : String)
    (recs : List (CrifRec ℝ)) (q : String) : ℝ :=
  Real.sqrt (max (specIrKSqClaim cfg calcCcy recs q) 0)

/-- The cross-currency IR delta aggregation as claim C4 states it
    (`Σ K_b² + Σ 2 γ S_b S_c`): as in the code but without the
    concentration factor `g = min(CR_b, CR_c)/max(CR_b, CR_c)`. -/
noncomputable def specIrAllSqClaim (cfg : SimmCfg) (calcCcy : String)
    (recs : List (CrifRec ℝ)) : ℝ :=
  rsum (irQuals recs) (fun q => irK cfg calcCcy recs q ^ 2) +
    crossSum
      (fun qo qi =>
        2 * clamp (irSumWS cfg recs qo) (irK cfg calcCcy recs qo) *
          clamp (irSumWS cfg recs qi) (irK cfg calcCcy recs qi) *
          cfg.corr RiskType.IRCurve qo "" "" RiskType.IRCurve qi "" "" "")
      (irQuals recs)

/-- The claimed IR delta total of C4. -/
noncomputable def specIrDeltaAllClaim (cfg : SimmCfg) (calcCcy : String)
    (recs : List (CrifRec ℝ)) : ℝ :=
  Real.sqrt (max (specIrAllSqClaim cfg calcCcy recs) 0)

/-! ## Concrete counterexample data -/

/-- A configuration with unit weights/thresholds, zero correlations,
    normal quantile stand-in `2` and curvature scaling factor `1/2`. -/
noncomputable def ceCfgC2 : SimmCfg where
  weight := fun _ _ _ _ => 1
  corr := fun _ _ _ _ _ _ _ _ _ => 0
  thr := fun _ _ => 1
  cw := fun _ _ => 1
  sigmaF := fun _ _ _ _ => 1
  hvrF := fun _ => 1
  scalingCM := 1 / 2
  q995 := 2
  verGt1_0 := true
  verGe2_2 := false

/-- A single Credit vega sensitivity of one USD. -/
noncomputable def ceRecC2 : CrifRec ℝ where
  nettingSet := "NS"
  productClass := "RatesFX"
  riskType := RiskType.CreditVol
  qualifier := "Q1"
  bucket := "1"
  label1 := "1y"
  label2 := ""
  amount := 1
  amountUsd := 1
  amountCcy := "USD"
  collectRegulations := ""
  postRegulations := ""
  imModel := "SIMM"
  tradeId := "T1"

/-- A configuration whose inter-bucket FX correlation depends on the
    representative qualifier: zero against "AUD", one half against
    "EUR". -/
noncomputable def ceCfgC3 : SimmCfg where
  weight := fun _ _ _ _ => 1
  corr := fun _ q1 _ _ _ _ _ _ _ => if q1 = "AUD" then 0 else if q1 = "EUR" then 1 / 2 else 0
  thr := fun _ _ => 1
  cw := fun _ _ => 1
  sigmaF := fun _ _ _ _ => 1
  hvrF := fun _ => 1
  scalingCM := 1
  q995 := 2
  verGt1_0 := true
  verGe2_2 := false

/-- One FX sensitivity on "JPY" in bucket "1". -/
noncomputable def ceRecC3a : CrifRec ℝ where
  nettingSet := "NS"
  productClass := "RatesFX"
  riskType := RiskType.FX
  qualifier := "JPY"
  bucket := "1"
  label1 := ""
  label2 := ""
  amount := 1
  amountUsd := 1
  amountCcy := "USD"
  collectRegulations := ""
  postRegulations := ""
  imModel := "SIMM"
  tradeId := "T1"

/-- An FX sensitivity on the calculation currency "AUD" in bucket "2" —
    excluded from all sums, but still contributing its qualifier to the
    bucket's qualifier set. -/
noncomputable def ceRecC3b : CrifRec ℝ where
  nettingSet := "NS"
  productClass := "RatesFX"
  riskType := RiskType.FX
  qualifier := "AUD"
  bucket := "2"
  label1 := ""
  label2 := ""
  amount := 5
  amountUsd := 5
  amountCcy := "USD"
  collectRegulations := ""
  postRegulations := ""
  imModel := "SIMM"
  tradeId := "T2"

/-- One FX sensitivity on "EUR" in bucket "2". -/
noncomputable def ceRecC3c : CrifRec ℝ where
  nettingSet := "NS"
  productClass := "RatesFX"
  riskType := RiskType.FX
  qualifier := "EUR"
  bucket := "2"
  label1 := ""
  label2 := ""
  amount := 1
  amountUsd := 1
  amountCcy := "USD"
  collectRegulations := ""
  postRegulations := ""
  imModel := "SIMM"
  tradeId := "T3"

/-- The FX record list of the C3 counterexample. -/
noncomputable def ceRecsC3 : List (CrifRec ℝ) :=
  [ceRecC3a, ceRecC3b, ceRecC3c]

/-- An IRCurve sensitivity of four USD on "EUR" (concentration risk 2 at
    unit threshold). -/
noncomputable def ceRecC4a : CrifRec ℝ where
  nettingSet := "NS"
  productClass := "RatesFX"
  riskType := RiskType.IRCurve
  qualifier := "EUR"
  bucket := "1"
  label1 := "10y"
  label2 := "Libor3m"
  amount := 4
  amountUsd := 4
  amountCcy := "USD"
  collectRegulations := ""
  postRegulations := ""
  imModel := "SIMM"
  tradeId := "T1"

/-- A cross-currency-basis sensitivity of three USD on "EUR". -/
noncomputable def ceRecC4b : CrifRec ℝ where
  nettingSet := "NS"
  productClass := "RatesFX"
  riskType := RiskType.XCcyBasis
  qualifier := "EUR"
  bucket := ""
  label1 := "2w"
  label2 := ""
  amount := 3
  amountUsd := 3
  amountCcy := "USD"
  collectRegulations := ""
  postRegulations := ""
  imModel := "SIMM"
  tradeId := "T2"

/-- The IR record list of the C4 counterexample. -/
noncomputable def ceRecsC4 : List (CrifRec ℝ) :=
  [ceRecC4a, ceRecC4b]

/-- An "AddOnNotionalFactor" record (product class Empty) with qualifier
    "Q" and factor 5 percent. -/
def ceRecC8f : CrifRec ℚ where
  nettingSet := "NS"
  productClass := ""
  riskType := RiskType.AddOnNotionalFactor
  qualifier := "Q"
  bucket := ""
  label1 := ""
  label2 := ""
  amount := 5
  amountUsd := 5
  amountCcy := "USD"
  collectRegulations := ""
  postRegulations := ""
  imModel := "SIMM"
  tradeId := "T1"

/-- A "Notional" record with qualifier "Q" but a non-Empty product
    class. -/
def ceRecC8n1 : CrifRec ℚ where
  nettingSet := "NS"
  productClass := "Equity"
  riskType := RiskType.Notional
  qualifier := "Q"
  bucket := ""
  label1 := ""
  label2 := ""
  amount := 100
  amountUsd := 100
  amountCcy := "USD"
  collectRegulations := ""
  postRegulations := ""
  imModel := "SIMM"
  tradeId := "T2"

/-- A second "Notional" record with qualifier "Q" and a non-Empty product
    class. -/
def ceRecC8n2 : CrifRec ℚ where
  nettingSet := "NS"
  productClass := "Equity"
  riskType := RiskType.Notional
  qualifier := "Q"
  bucket := ""
  label1 := ""
  label2 := ""
  amount := 200
  amountUsd := 200
  amountCcy := "USD"
  collectRegulations := ""
  postRegulations := ""
  imModel := "SIMM"
  tradeId := "T3"

/-- The record list of the C8 counterexample: two Notional records with
    qualifier "Q" in the netting set, neither with product class Empty. -/
def ceRecsC8 : List (CrifRec ℚ) :=
  [ceRecC8f, ceRecC8n1, ceRecC8n2]

/-- A Credit vega sensitivity in the "Residual" bucket (witness data for
    residual additivity). -/
noncomputable def ceRecResidual : CrifRec ℝ where
  nettingSet := "NS"
  productClass := "RatesFX"
  riskType := RiskType.CreditVol
  qualifier := "Q9"
  bucket := "Residual"
  label1 := "1y"
  label2 := ""
  amount := 3
  amountUsd := 3
  amountCcy := "USD"
  collectRegulations := ""
  postRegulations := ""
  imModel := "SIMM"
  tradeId := "T9"

/-- Scaling of the net sensitivity amounts of one qualifier by a factor
    (used to state concentration monotonicity). -/
def scaleQual (q : String) (c : ℝ) (r : CrifRec ℝ) : CrifRec ℝ :=
  if r.qualifier = q then
    { r with amountUsd := c * r.amountUsd }
  else r

/-- A net CFTC record (witness data for the CFTC-into-SEC merge). -/
def ceRecC6c : CrifRec ℚ where
  nettingSet := "NS"
  productClass := "RatesFX"
  riskType := RiskType.IRCurve
  qualifier := "EUR"
  bucket := "1"
  label1 := "10y"
  label2 := ""
  amount := 7
  amountUsd := 7
  amountCcy := "USD"
  collectRegulations := ""
  postRegulations := ""
  imModel := "SIMM"
  tradeId := "T1"

/-- A net SEC record equal to `ceRecC6c` everywhere except the native
    amount currency. -/
def ceRecC6s : CrifRec ℚ :=
  { ceRecC6c with amountCcy := "EUR" }

/-! # Theorems -/

/-! ## Numeric facts about the comparison constants -/

theorem dblMin_pos : (0 : ℚ) < dblMin := by
  norm_num [dblMin]

theorem ceTol_pos : (0 : ℚ) < ceTol := by
  norm_num [ceTol]

theorem ceTol_lt_one : ceTol < 1 := by
  norm_num [ceTol]

theorem dblMin_lt_ceTol_sq : dblMin < ceTol ^ 2 := by
  norm_num [dblMin, ceTol]

theorem closeEnough_refl (x : ℚ) : closeEnough x x = true := by
  simp [closeEnough]

theorem closeEnough_zero_seed : closeEnough 0 dblMin = true := by
  have h0 : (0 : ℚ) ≠ dblMin := ne_of_lt dblMin_pos
  have habs : |(0 : ℚ) - dblMin| = dblMin := by
    rw [abs_sub_comm]
    simp [abs_of_pos dblMin_pos]
  rw [closeEnough, if_neg h0]
  simp only [zero_mul, if_pos rfl, habs]
  simp [dblMin_lt_ceTol_sq]

theorem closeEnough_neg_seed (m : ℚ) (hm : m < 0) : closeEnough m dblMin = false := by
  have hne : m ≠ dblMin := ne_of_lt (lt_trans hm dblMin_pos)
  have hmul : m * dblMin ≠ 0 := mul_ne_zero (ne_of_lt hm) (ne_of_gt dblMin_pos)
  have habs : |m - dblMin| = dblMin - m := by
    rw [abs_sub_comm, abs_of_pos (by linarith [dblMin_pos])]
  have habsm : |m| = -m := abs_of_neg hm
  rw [closeEnough, if_neg hne, if_neg hmul]
  have h1 : ¬ |m - dblMin| ≤ ceTol * |m| := by
    rw [habs, habsm]
    have : ceTol * (-m) < -m := by
      have := ceTol_lt_one
      nlinarith
    have := dblMin_pos
    push_neg
    linarith
  have h2 : ¬ |m - dblMin| ≤ ceTol * |dblMin| := by
    rw [habs, abs_of_pos dblMin_pos]
    have : ceTol * dblMin < dblMin := by
      have := ceTol_lt_one
      have := dblMin_pos
      nlinarith
    push_neg
    linarith
  simp [h1, h2]

/-! ## Facts about the winning-margin fold -/

theorem wmFold_ge_init (ms : List (String × ℚ)) (a : ℚ) :
    a ≤ ms.foldl (fun w p => if p.2 > w then p.2 else w) a := by
  induction ms generalizing a with
  | nil => exact le_refl a
  | cons p ms ih =>
      refine le_trans ?_ (ih (if p.2 > a then p.2 else a))
      split
      · linarith
      · exact le_refl a

theorem wmFold_ge_elem (ms : List (String × ℚ)) (a : ℚ) (p : String × ℚ) (hp : p ∈ ms) :
    p.2 ≤ ms.foldl (fun w p => if p.2 > w then p.2 else w) a := by
  induction ms generalizing a with
  | nil => cases hp
  | cons q ms ih =>
      rcases List.mem_cons.mp hp with h | h
      · subst h
        refine le_trans ?_ (wmFold_ge_init ms (if p.2 > a then p.2 else a))
        split
        · exact le_refl _
        · linarith [not_lt.mp (by assumption : ¬ p.2 > a)]
      · exact ih _ h

theorem wmFold_le (ms : List (String × ℚ)) (a M : ℚ) (hub : ∀ p ∈ ms, p.2 ≤ M)
    (ha : a ≤ M) : ms.foldl (fun w p => if p.2 > w then p.2 else w) a ≤ M := by
  induction ms generalizing a with
  | nil => exact ha
  | cons q ms ih =>
      refine ih _ (fun p hp => hub p (List.mem_cons_of_mem q hp)) ?_
      show (if q.2 > a then q.2 else a) ≤ M
      split
      · exact hub q (List.mem_cons_self q ms)
      · exact ha

theorem winningMargin_eq_max (ms : List (String × ℚ)) (M : ℚ)
    (hmem : ∃ p ∈ ms, p.2 = M) (hub : ∀ p ∈ ms, p.2 ≤ M) (hM : dblMin ≤ M) :
    winningMarginOf ms = M := by
  obtain ⟨p, hp, hpM⟩ := hmem
  refine le_antisymm (wmFold_le ms dblMin M hub hM) ?_
  calc M = p.2 := hpM.symm
    _ ≤ _ := wmFold_ge_elem ms dblMin p hp

theorem winningMargin_eq_seed (ms : List (String × ℚ)) (hub : ∀ p ∈ ms, p.2 ≤ 0) :
    winningMarginOf ms = dblMin := by
  refine le_antisymm ?_ (wmFold_ge_init ms dblMin)
  exact wmFold_le ms dblMin dblMin
    (fun p hp => le_trans (hub p hp) (le_of_lt dblMin_pos)) (le_refl _)

theorem getWinningRegulation_mem (prio ws : List String) (hne : ws ≠ []) :
    ∃ r, getWinningRegulation prio ws = some r ∧ r ∈ ws := by
  rw [getWinningRegulation]
  cases hfind : prio.find? (fun p => ws.contains p) with
  | some r =>
      refine ⟨r, rfl, ?_⟩
      have := List.find?_some hfind
      simpa using this
  | none =>
      cases ws with
      | nil => exact absurd rfl hne
      | cons x xs => exact ⟨x, rfl, List.mem_cons_self x xs⟩

theorem selectWinner_mem (prio : List String) (ms : List (String × ℚ))
    (hne : winnersOf ms ≠ []) :
    ∃ r, selectWinner prio ms = some r ∧ r ∈ winnersOf ms := by
  rw [selectWinner]
  split
  · exact getWinningRegulation_mem prio (winnersOf ms) hne
  · cases hws : winnersOf ms with
    | nil => exact absurd hws hne
    | cons x xs =>
        refine ⟨x, ?_, hws ▸ List.mem_cons_self x xs⟩
        simp [hws]

/-! ## Claim C1: winning-regulation selection -/

/-- C1 (counterexample).  The claim asserts that for every side and netting
    set with at least one regulation's SimmResults a winning regulation of
    maximal overall margin is selected.  With a single regulation whose
    overall margin is `-1` the code selects nothing: the running maximum is
    seeded with `std::numeric_limits<Real>::min() = 2^-1022`, `-1` is not
    `close_enough` to that seed, so the candidate list stays empty and
    `winningRegulations.at(0)` throws (modelled as `none`). -/
theorem selectWinner_negative_margin_none :
    selectWinner ["SEC"] [("CFTC", (-1 : ℚ))] = none := by
  have h1 : winningMarginOf [("CFTC", (-1 : ℚ))] = dblMin := by
    have hlt : ¬ ((-1 : ℚ) > dblMin) := by
      push_neg
      linarith [dblMin_pos]
    simp [winningMarginOf, hlt]
  have h2 : closeEnough (-1 : ℚ) dblMin = false := closeEnough_neg_seed (-1) (by norm_num)
  simp [selectWinner, winnersOf, h1, h2]

/-- C1 (amended).  For every collection of per-regulation overall margins
    whose maximum `M` is either exactly zero or larger than the `DBL_MIN`
    seed of the running maximum, the selector picks a regulation whose
    margin is `close_enough` to `M` (so maximal within floating-point
    tolerance), and when several candidates tie the choice is delegated to
    the externally supplied priority ordering; the selector is a pure
    function of its inputs, so repeated runs pick the same regulation. -/
theorem selectWinner_picks_max (prio : List String) (ms : List (String × ℚ)) (M : ℚ)
    (hmem : ∃ p ∈ ms, p.2 = M) (hub : ∀ p ∈ ms, p.2 ≤ M) (hM : M = 0 ∨ dblMin < M) :
    (∃ r m, selectWinner prio ms = some r ∧ (r, m) ∈ ms ∧ closeEnough m M = true) ∧
      (1 < (winnersOf ms).length →
        selectWinner prio ms = getWinningRegulation prio (winnersOf ms)) := by
  constructor
  · -- a winner exists and its margin is close_enough to the maximum
    obtain ⟨p0, hp0, hp0M⟩ := hmem
    rcases hM with hM0 | hMgt
    · -- all margins are at most zero; the winning margin stays at the seed
      subst hM0
      have hub0 : ∀ p ∈ ms, p.2 ≤ 0 := hub
      have hwm : winningMarginOf ms = dblMin := winningMargin_eq_seed ms hub0
      have hp0w : p0 ∈ ms.filter (fun p => closeEnough p.2 (winningMarginOf ms)) := by
        rw [List.mem_filter]
        refine ⟨hp0, ?_⟩
        rw [hwm, hp0M]
        exact closeEnough_zero_seed
      have hne : winnersOf ms ≠ [] := by
        rw [winnersOf]
        intro h
        rw [List.map_eq_nil_iff] at h
        rw [h] at hp0w
        cases hp0w
      obtain ⟨r, hr, hrmem⟩ := selectWinner_mem prio ms hne
      rw [winnersOf, List.mem_map] at hrmem
      obtain ⟨a, ha, har⟩ := hrmem
      rw [List.mem_filter] at ha
      obtain ⟨hams, hace⟩ := ha
      have ha0 : a.2 = 0 := by
        rcases lt_or_eq_of_le (hub a hams) with hlt | heq
        · exfalso
          rw [hwm] at hace
          rw [closeEnough_neg_seed a.2 hlt] at hace
          cases hace
        · exact heq
      refine ⟨r, a.2, hr, ?_, ?_⟩
      · rw [← har]
        simpa using hams
      · rw [ha0]
        exact closeEnough_refl 0
    · -- the maximum exceeds the seed, so the winning margin is the maximum
      have hwm : winningMarginOf ms = M :=
        winningMargin_eq_max ms M ⟨p0, hp0, hp0M⟩ hub (le_of_lt hMgt)
      have hp0w : p0 ∈ ms.filter (fun p => closeEnough p.2 (winningMarginOf ms)) := by
        rw [List.mem_filter]
        refine ⟨hp0, ?_⟩
        rw [hwm, hp0M]
        exact closeEnough_refl M
      have hne : winnersOf ms ≠ [] := by
        rw [winnersOf]
        intro h
        rw [List.map_eq_nil_iff] at h
        rw [h] at hp0w
        cases hp0w
      obtain ⟨r, hr, hrmem⟩ := selectWinner_mem prio ms hne
      rw [winnersOf, List.mem_map] at hrmem
      obtain ⟨a, ha, har⟩ := hrmem
      rw [List.mem_filter] at ha
      obtain ⟨hams, hace⟩ := ha
      refine ⟨r, a.2, hr, ?_, ?_⟩
      · rw [← har]
        simpa using hams
      · rw [hwm] at hace
        exact hace
  · -- a multi-way tie is resolved by the priority list
    intro hlen
    rw [selectWinner]
    simp only [if_pos hlen]

/-- C1 witness: two regulations tie at margin one; the selector picks one
    of them with margin `close_enough` to the maximum. -/
theorem selectWinner_picks_max_witness :
    (∃ r m, selectWinner ["SEC"] [("CFTC", (1 : ℚ)), ("SEC", 1)] = some r ∧
        (r, m) ∈ [("CFTC", (1 : ℚ)), ("SEC", 1)] ∧ closeEnough m 1 = true) ∧
      (1 < (winnersOf [("CFTC", (1 : ℚ)), ("SEC", 1)]).length →
        selectWinner ["SEC"] [("CFTC", (1 : ℚ)), ("SEC", 1)] =
          getWinningRegulation ["SEC"] (winnersOf [("CFTC", (1 : ℚ)), ("SEC", 1)])) :=
  selectWinner_picks_max ["SEC"] [("CFTC", 1), ("SEC", 1)] 1
    ⟨("CFTC", 1), by simp, rfl⟩
    (by
      intro p hp
      rcases List.mem_cons.mp hp with h | h
      · rw [h]
      · rcases List.mem_cons.mp h with h2 | h2
        · rw [h2]
        · cases h2)
    (Or.inr (by norm_num [dblMin]))

/-! ## Claim C6: the CFTC-into-SEC merge -/

theorem lookup_pair_cons {β : Type} (a k : String) (b : β) (es : List (String × β)) :
    List.lookup a ((k, b) :: es) = if a = k then some b else List.lookup a es := by
  rw [List.lookup]
  by_cases h : a = k
  · simp [h]
  · have hbeq : (a == k) = false := by
      rw [beq_eq_false_iff_ne]
      exact h
    rw [hbeq, if_neg h]

theorem lookup_map_sec_ne (f : List (CrifRec ℚ) → List (CrifRec ℚ))
    (m : List (String × List (CrifRec ℚ))) (k : String) (hk : k ≠ "SEC") :
    (m.map (fun p => if p.1 = "SEC" then (p.1, f p.2) else p)).lookup k = m.lookup k := by
  induction m with
  | nil => rfl
  | cons p ps ih =>
      rcases p with ⟨pk, pv⟩
      by_cases hps : pk = "SEC"
      · subst hps
        rw [List.map_cons]
        rw [if_pos rfl]
        rw [lookup_pair_cons, lookup_pair_cons, if_neg hk, if_neg hk]
        exact ih
      · rw [List.map_cons]
        rw [if_neg hps]
        by_cases hkp : k = pk
        · rw [lookup_pair_cons, lookup_pair_cons, if_pos hkp, if_pos hkp]
        · rw [lookup_pair_cons, lookup_pair_cons, if_neg hkp, if_neg hkp]
          exact ih

theorem lookup_map_sec_eq (f : List (CrifRec ℚ) → List (CrifRec ℚ))
    (m : List (String × List (CrifRec ℚ))) (sec : List (CrifRec ℚ))
    (hsec : m.lookup "SEC" = some sec) :
    (m.map (fun p => if p.1 = "SEC" then (p.1, f p.2) else p)).lookup "SEC" = some (f sec) := by
  induction m with
  | nil => cases hsec
  | cons p ps ih =>
      rcases p with ⟨pk, pv⟩
      rw [lookup_pair_cons] at hsec
      by_cases hps : pk = "SEC"
      · subst hps
        rw [if_pos rfl] at hsec
        have hval : pv = sec := by
          simpa using hsec
        subst hval
        rw [List.map_cons]
        rw [if_pos rfl]
        rw [lookup_pair_cons, if_pos rfl]
      · rw [if_neg (fun h => hps h.symm)] at hsec
        rw [List.map_cons]
        rw [if_neg hps]
        rw [lookup_pair_cons, if_neg (fun h => hps h.symm)]
        exact ih hsec

/-- C6.  When a netting set has both a "CFTC" and a "SEC" regulation bucket
    on a side, the post-processing leaves the CFTC bucket intact, replaces
    the SEC bucket by the SEC records plus exactly those net CFTC records
    that have no equal record already in SEC — record equality ignoring the
    native amount-currency field — and a record belongs to the merged SEC
    bucket iff it was in SEC, or is a CFTC record without an
    amountCcy-ignoring equal in SEC. -/
theorem cftc_sec_merge (m : List (String × List (CrifRec ℚ))) (sec cftc : List (CrifRec ℚ))
    (hsec : m.lookup "SEC" = some sec) (hcftc : m.lookup "CFTC" = some cftc) :
    (applySecCftcMerge m).lookup "CFTC" = some cftc ∧
      (applySecCftcMerge m).lookup "SEC" =
        some (sec ++ cftc.filter (fun c => ¬ sec.any (fun s => eqIgnAmountCcy c s))) ∧
      (∀ c, c ∈ mergeCFTCIntoSEC sec cftc ↔
        (c ∈ sec ∨ (c ∈ cftc ∧ ∀ s ∈ sec, eqIgnAmountCcy c s = false))) := by
  have hm : applySecCftcMerge m =
      m.map (fun p => if p.1 = "SEC" then (p.1, mergeCFTCIntoSEC p.2 cftc) else p) := by
    rw [applySecCftcMerge, hcftc, hsec]
  refine ⟨?_, ?_, ?_⟩
  · rw [hm]
    exact (lookup_map_sec_ne (fun l => mergeCFTCIntoSEC l cftc) m "CFTC" (by decide)).trans
      hcftc
  · rw [hm]
    exact lookup_map_sec_eq (fun l => mergeCFTCIntoSEC l cftc) m sec hsec
  · intro c
    simp only [mergeCFTCIntoSEC, List.mem_append, List.mem_filter, decide_eq_true_eq,
      Bool.not_eq_true, List.any_eq_false]

/-- C6 witness: a CFTC record equal to the sole SEC record except for the
    native amount currency is not inserted again; the merged SEC bucket is
    unchanged and the CFTC bucket survives. -/
theorem cftc_sec_merge_witness :
    (applySecCftcMerge [("CFTC", [ceRecC6c]), ("SEC", [ceRecC6s])]).lookup "CFTC" =
        some [ceRecC6c] ∧
      (applySecCftcMerge [("CFTC", [ceRecC6c]), ("SEC", [ceRecC6s])]).lookup "SEC" =
        some ([ceRecC6s] ++
          [ceRecC6c].filter (fun c => ¬ [ceRecC6s].any (fun s => eqIgnAmountCcy c s))) ∧
      (∀ c, c ∈ mergeCFTCIntoSEC [ceRecC6s] [ceRecC6c] ↔
        (c ∈ [ceRecC6s] ∨
          (c ∈ [ceRecC6c] ∧ ∀ s ∈ [ceRecC6s], eqIgnAmountCcy c s = false))) :=
  cftc_sec_merge [("CFTC", [ceRecC6c]), ("SEC", [ceRecC6s])] [ceRecC6s] [ceRecC6c]
    (by rfl) (by rfl)

/-! ## Facts about first-occurrence deduplication -/

theorem mem_firstDedupAux (l : List String) :
    ∀ (seen : List String) (x : String),
      x ∈ firstDedupAux seen l ↔ x ∈ l ∧ x ∉ seen := by
  induction l with
  | nil =>
      intro seen x
      simp [firstDedupAux]
  | cons y ys ih =>
      intro seen x
      rw [firstDedupAux]
      by_cases hy : y ∈ seen
      · rw [if_pos hy, ih]
        constructor
        · rintro ⟨hx, hs⟩
          exact ⟨List.mem_cons_of_mem y hx, hs⟩
        · rintro ⟨hx, hs⟩
          rcases List.mem_cons.mp hx with h | h
          · subst h
            exact absurd hy hs
          · exact ⟨h, hs⟩
      · rw [if_neg hy]
        rw [List.mem_cons, ih]
        constructor
        · rintro (h | ⟨hx, hs⟩)
          · subst h
            exact ⟨List.mem_cons_self x ys, hy⟩
          · refine ⟨List.mem_cons_of_mem y hx, ?_⟩
            intro hc
            exact hs (List.mem_cons_of_mem y hc)
        · rintro ⟨hx, hs⟩
          rcases List.mem_cons.mp hx with h | h
          · exact Or.inl h
          · by_cases hxy : x = y
            · exact Or.inl hxy
            · refine Or.inr ⟨h, ?_⟩
              intro hc
              rcases List.mem_cons.mp hc with h2 | h2
              · exact hxy h2
              · exact hs h2

theorem mem_firstDedup (l : List String) (x : String) :
    x ∈ firstDedup l ↔ x ∈ l := by
  rw [firstDedup, mem_firstDedupAux]
  simp

theorem nodup_firstDedupAux (l : List String) :
    ∀ seen : List String, (firstDedupAux seen l).Nodup := by
  induction l with
  | nil =>
      intro seen
      simp [firstDedupAux]
  | cons y ys ih =>
      intro seen
      rw [firstDedupAux]
      by_cases hy : y ∈ seen
      · rw [if_pos hy]
        exact ih seen
      · rw [if_neg hy]
        refine List.nodup_cons.mpr ⟨?_, ih (y :: seen)⟩
        intro hc
        have := (mem_firstDedupAux ys (y :: seen) y).mp hc
        exact this.2 (List.mem_cons_self y seen)

theorem nodup_firstDedup (l : List String) : (firstDedup l).Nodup :=
  nodup_firstDedupAux l []

/-! ## Claim C7: "Excluded" and "Unspecified" handling -/

theorem nodup_all_eq_length_le (l : List String) (x : String)
    (hnd : l.Nodup) (hall : ∀ t ∈ l, t = x) : l.length ≤ 1 := by
  match l with
  | [] => simp
  | [a] => simp
  | a :: b :: rest =>
      exfalso
      have ha : a = x := hall a (by simp)
      have hb : b = x := hall b (by simp)
      rw [List.nodup_cons] at hnd
      exact hnd.1 (by rw [ha, ← hb]; simp)

theorem length_le_one_all_eq (l : List String) (x : String)
    (hx : x ∈ l) (hlen : l.length ≤ 1) : ∀ t ∈ l, t = x := by
  match l with
  | [] => cases hx
  | [a] =>
      have hax : x = a := by simpa using hx
      intro t ht
      have : t = a := by simpa using ht
      rw [this, hax]
  | a :: b :: rest => simp at hlen

/-- C7.  For every record and side during regulation splitting:
    "Excluded" is dropped unconditionally; "Unspecified" (when parsed from
    the record's regulation string) is dropped iff `enforceIMRegulations`
    is set and the netting set's collect/post regulation strings were not
    all empty — equivalently, some record of the netting set carries a
    non-empty collect or post regulation list; and after the per-netting-set
    post-processing, "Unspecified" survives iff it is the only regulation of
    the netting set and side. -/
theorem unspecified_excluded_handling (recs : List (CrifRec ℚ)) (enforce : Bool)
    (side : SimmSide) (r : CrifRec ℚ) (nsd : String) :
    ("Excluded" ∉ regsForRecord recs enforce side r) ∧
      ("Unspecified" ∈ rawRegs enforce side r →
        ("Unspecified" ∉ regsForRecord recs enforce side r ↔
          (enforce = true ∧
            ¬(collectRegsEmptyFor recs r.nettingSet = true ∧
              postRegsEmptyFor recs r.nettingSet = true)))) ∧
      ((collectRegsEmptyFor recs nsd = true ∧ postRegsEmptyFor recs nsd = true) ↔
        ∀ rec ∈ (nonSchedule recs).filter (fun a => a.nettingSet = nsd),
          (rec.collectRegulations = "" ∧ rec.postRegulations = "")) ∧
      ("Unspecified" ∈ finalRegNames (regNames recs enforce side nsd) ↔
        ("Unspecified" ∈ regNames recs enforce side nsd ∧
          ∀ t ∈ regNames recs enforce side nsd, t = "Unspecified")) := by
  refine ⟨?_, ?_, ?_, ?_⟩
  · -- "Excluded" never survives the filter
    rw [regsForRecord, keptRegs]
    intro hc
    rw [List.mem_filter] at hc
    have := hc.2
    simp at this
  · -- "Unspecified" is dropped iff enforcement applies and regulations were given
    intro hraw
    have h1 : "Unspecified" ∈ regsForRecord recs enforce side r ↔
        ¬(enforce = true ∧
          ¬(collectRegsEmptyFor recs r.nettingSet = true ∧
            postRegsEmptyFor recs r.nettingSet = true)) := by
      rw [regsForRecord, keptRegs, List.mem_filter]
      simp only [decide_eq_true_eq]
      constructor
      · rintro ⟨-, hpred⟩ hcond
        exact hpred (Or.inr ⟨by trivial, hcond.1, hcond.2⟩)
      · intro hcond
        refine ⟨hraw, ?_⟩
        rintro (he | ⟨-, henf, hne⟩)
        · simp at he
        · exact hcond ⟨henf, hne⟩
    constructor
    · intro hnm
      by_contra hc
      exact hnm (h1.mpr hc)
    · intro hc hmem
      exact (h1.mp hmem) hc
  · -- the emptiness flags record exactly "no record carries regulations"
    rw [collectRegsEmptyFor, postRegsEmptyFor, List.all_eq_true, List.all_eq_true]
    constructor
    · rintro ⟨hc, hp⟩ rec hrec
      exact ⟨by simpa using hc rec hrec, by simpa using hp rec hrec⟩
    · intro h
      exact ⟨fun rec hrec => by simpa using (h rec hrec).1,
        fun rec hrec => by simpa using (h rec hrec).2⟩
  · -- after post-processing, "Unspecified" survives iff it is alone
    have hnd : (regNames recs enforce side nsd).Nodup := nodup_firstDedup _
    rw [finalRegNames]
    by_cases hc : "Unspecified" ∈ regNames recs enforce side nsd ∧
        1 < (regNames recs enforce side nsd).length
    · rw [if_pos hc]
      constructor
      · intro hmem
        rw [List.mem_filter] at hmem
        have := hmem.2
        simp at this
      · rintro ⟨hmem, hall⟩
        have := nodup_all_eq_length_le _ _ hnd hall
        omega
    · rw [if_neg hc]
      constructor
      · intro hmem
        refine ⟨hmem, ?_⟩
        have hlen : (regNames recs enforce side nsd).length ≤ 1 := by
          by_contra hlen
          exact hc ⟨hmem, by omega⟩
        exact length_le_one_all_eq _ _ hmem hlen
      · exact fun h => h.1

/-- C7 witness: a record tagged "CFTC,Unspecified,Excluded" in a netting set
    where regulations are given, under enforcement: "Excluded" is dropped,
    and "Unspecified" is dropped because the netting set carries
    regulations. -/
theorem unspecified_excluded_handling_witness :
    ("Excluded" ∉ regsForRecord [ceRecC6c] true SimmSide.Call ceRecC6c) ∧
      ("Unspecified" ∈ rawRegs true SimmSide.Call ceRecC6c →
        ("Unspecified" ∉ regsForRecord [ceRecC6c] true SimmSide.Call ceRecC6c ↔
          (true = true ∧
            ¬(collectRegsEmptyFor [ceRecC6c] ceRecC6c.nettingSet = true ∧
              postRegsEmptyFor [ceRecC6c] ceRecC6c.nettingSet = true)))) ∧
      ((collectRegsEmptyFor [ceRecC6c] "NS" = true ∧
          postRegsEmptyFor [ceRecC6c] "NS" = true) ↔
        ∀ rec ∈ (nonSchedule [ceRecC6c]).filter (fun a => a.nettingSet = "NS"),
          (rec.collectRegulations = "" ∧ rec.postRegulations = "")) ∧
      ("Unspecified" ∈ finalRegNames (regNames [ceRecC6c] true SimmSide.Call "NS") ↔
        ("Unspecified" ∈ regNames [ceRecC6c] true SimmSide.Call "NS" ∧
          ∀ t ∈ regNames [ceRecC6c] true SimmSide.Call "NS", t = "Unspecified")) :=
  unspecified_excluded_handling [ceRecC6c] true SimmSide.Call ceRecC6c "NS"

/-! ## Claim C8: notional-factor add-on margin -/

theorem nfm_fold_ok (recs : List (CrifRec ℚ)) (nsd : String) (fs : List (CrifRec ℚ))
    (acc : ℚ) (hgood : ∀ f ∈ fs, (notionalsFor recs nsd f.qualifier).length ≤ 1) :
    fs.foldlM (nfmStep recs nsd) acc =
      Except.ok (acc + qsum fs (notionalContribution recs nsd)) := by
  induction fs generalizing acc with
  | nil => simp [qsum, pure, Except.pure]
  | cons f fs ih =>
      have hf := hgood f (List.mem_cons_self f fs)
      have hlen : ¬ 2 ≤ (notionalsFor recs nsd f.qualifier).length := by omega
      rw [List.foldlM_cons, nfmStep, if_neg hlen]
      cases hh : (notionalsFor recs nsd f.qualifier).head? with
      | some n =>
          have hstep := ih (acc + n.amountUsd * f.amount / 100)
            (fun g hg => hgood g (List.mem_cons_of_mem f hg))
          simp only [bind, Except.bind]
          rw [hstep]
          congr 1
          simp only [qsum, List.map_cons, List.sum_cons, notionalContribution, hh]
          ring
      | none =>
          have hstep := ih acc (fun g hg => hgood g (List.mem_cons_of_mem f hg))
          simp only [bind, Except.bind]
          rw [hstep]
          congr 1
          simp only [qsum, List.map_cons, List.sum_cons, notionalContribution, hh]
          ring

theorem nfm_fold_error (recs : List (CrifRec ℚ)) (nsd : String) (fs : List (CrifRec ℚ))
    (acc : ℚ) :
    (∃ e, fs.foldlM (nfmStep recs nsd) acc = Except.error e) ↔
      ∃ f ∈ fs, 2 ≤ (notionalsFor recs nsd f.qualifier).length := by
  induction fs generalizing acc with
  | nil => simp [pure, Except.pure]
  | cons f fs ih =>
      rw [List.foldlM_cons, nfmStep]
      by_cases hb : 2 ≤ (notionalsFor recs nsd f.qualifier).length
      · rw [if_pos hb]
        simp only [bind, Except.bind]
        constructor
        · intro _
          exact ⟨f, List.mem_cons_self f fs, hb⟩
        · intro _
          exact ⟨f.qualifier, rfl⟩
      · rw [if_neg hb]
        cases hh : (notionalsFor recs nsd f.qualifier).head? with
        | some n =>
            simp only [bind, Except.bind]
            rw [ih]
            constructor
            · rintro ⟨g, hg, h2⟩
              exact ⟨g, List.mem_cons_of_mem f hg, h2⟩
            · rintro ⟨g, hg, h2⟩
              rcases List.mem_cons.mp hg with h | h
              · subst h
                exact absurd h2 hb
              · exact ⟨g, h, h2⟩
        | none =>
            simp only [bind, Except.bind]
            rw [ih]
            constructor
            · rintro ⟨g, hg, h2⟩
              exact ⟨g, List.mem_cons_of_mem f hg, h2⟩
            · rintro ⟨g, hg, h2⟩
              rcases List.mem_cons.mp hg with h | h
              · subst h
                exact absurd h2 hb
              · exact ⟨g, h, h2⟩

/-- C8 (counterexample).  The claim asserts that an error is raised iff
    more than one "Notional" sensitivity with the matching qualifier exists
    in the netting set.  Here the netting set contains two Notional records
    with qualifier "Q" (product class "Equity"), yet the code raises no
    error and adds no contribution, because its Notional lookup is keyed on
    `ProductClass::Empty` (line 1354-1355). -/
theorem addon_notional_counterexample :
    notionalFactorMargin ceRecsC8 "NS" = Except.ok 0 ∧
      2 ≤ (ceRecsC8.filter (fun a =>
        a.nettingSet = "NS" ∧ a.riskType = RiskType.Notional ∧ a.qualifier = "Q")).length := by
  constructor
  · rfl
  · rfl

/-- C8 (amended).  The additional-margin loop raises an error iff some
    "AddOnNotionalFactor" record of the netting set (product class Empty)
    has two or more matching "Notional" records with the same qualifier
    and product class Empty; when no factor record has two or more
    matches, the result is the sum over all factor records of
    `notional.amountUsd * factor / 100` for a unique match and `0` for no
    match. -/
theorem addon_notional_margin (recs : List (CrifRec ℚ)) (nsd : String) :
    ((∃ e, notionalFactorMargin recs nsd = Except.error e) ↔
      ∃ f ∈ addOnFactors recs nsd, 2 ≤ (notionalsFor recs nsd f.qualifier).length) ∧
      ((∀ f ∈ addOnFactors recs nsd, (notionalsFor recs nsd f.qualifier).length ≤ 1) →
        notionalFactorMargin recs nsd =
          Except.ok (qsum (addOnFactors recs nsd) (notionalContribution recs nsd))) ∧
      (∀ f, (notionalsFor recs nsd f.qualifier) = [] →
        notionalContribution recs nsd f = 0) ∧
      (∀ f n, (notionalsFor recs nsd f.qualifier) = [n] →
        notionalContribution recs nsd f = n.amountUsd * f.amount / 100) := by
  refine ⟨?_, ?_, ?_, ?_⟩
  · rw [notionalFactorMargin]
    exact nfm_fold_error recs nsd (addOnFactors recs nsd) 0
  · intro hgood
    rw [notionalFactorMargin, nfm_fold_ok recs nsd (addOnFactors recs nsd) 0 hgood,
      zero_add]
  · intro f hf
    rw [notionalContribution, hf]
    rfl
  · intro f n hf
    rw [notionalContribution, hf]
    rfl

/-- C8 witness: a single factor record without any matching Notional record
    yields no error and no contribution; the error characterisation and the
    contribution formulas hold on this input. -/
theorem addon_notional_margin_witness :
    (((∃ e, notionalFactorMargin [ceRecC8f] "NS" = Except.error e) ↔
      ∃ f ∈ addOnFactors [ceRecC8f] "NS",
        2 ≤ (notionalsFor [ceRecC8f] "NS" f.qualifier).length) ∧
      ((∀ f ∈ addOnFactors [ceRecC8f] "NS",
          (notionalsFor [ceRecC8f] "NS" f.qualifier).length ≤ 1) →
        notionalFactorMargin [ceRecC8f] "NS" =
          Except.ok (qsum (addOnFactors [ceRecC8f] "NS")
            (notionalContribution [ceRecC8f] "NS"))) ∧
      (∀ f, (notionalsFor [ceRecC8f] "NS" f.qualifier) = [] →
        notionalContribution [ceRecC8f] "NS" f = 0) ∧
      (∀ f n, (notionalsFor [ceRecC8f] "NS" f.qualifier) = [n] →
        notionalContribution [ceRecC8f] "NS" f = n.amountUsd * f.amount / 100)) ∧
      notionalFactorMargin [ceRecC8f] "NS" = Except.ok 0 :=
  ⟨addon_notional_margin [ceRecC8f] "NS", by rfl⟩

/-! ## Facts about list sums and cross sums -/

theorem rsum_nil (f : α → ℝ) : rsum [] f = 0 := rfl

theorem rsum_cons (x : α) (l : List α) (f : α → ℝ) :
    rsum (x :: l) f = f x + rsum l f := by
  rw [rsum, List.map_cons, List.sum_cons, rsum]

theorem rsum_congr (l : List α) (f g : α → ℝ) (h : ∀ x ∈ l, f x = g x) :
    rsum l f = rsum l g := by
  induction l with
  | nil => rfl
  | cons x xs ih =>
      rw [rsum_cons, rsum_cons, h x (List.mem_cons_self x xs),
        ih (fun y hy => h y (List.mem_cons_of_mem x hy))]

theorem rsum_eq_zero (l : List α) (f : α → ℝ) (h : ∀ x ∈ l, f x = 0) :
    rsum l f = 0 := by
  induction l with
  | nil => rfl
  | cons x xs ih =>
      rw [rsum_cons, h x (List.mem_cons_self x xs),
        ih (fun y hy => h y (List.mem_cons_of_mem x hy)), add_zero]

theorem rsum_nonneg (l : List α) (f : α → ℝ) (h : ∀ x ∈ l, 0 ≤ f x) :
    0 ≤ rsum l f := by
  induction l with
  | nil => exact le_refl 0
  | cons x xs ih =>
      rw [rsum_cons]
      exact add_nonneg (h x (List.mem_cons_self x xs))
        (ih (fun y hy => h y (List.mem_cons_of_mem x hy)))

theorem rsum_add (l : List α) (f g : α → ℝ) :
    rsum l (fun x => f x + g x) = rsum l f + rsum l g := by
  induction l with
  | nil => simp [rsum_nil]
  | cons x xs ih =>
      rw [rsum_cons, rsum_cons, rsum_cons, ih]
      ring

theorem rsum_mul_left (l : List α) (a : ℝ) (f : α → ℝ) :
    rsum l (fun x => a * f x) = a * rsum l f := by
  induction l with
  | nil => simp [rsum_nil]
  | cons x xs ih =>
      rw [rsum_cons, rsum_cons, ih]
      ring

theorem rsum_filter_vanish (l : List α) (p : α → Bool) (f : α → ℝ)
    (h : ∀ x ∈ l, p x = false → f x = 0) :
    rsum l f = rsum (l.filter p) f := by
  induction l with
  | nil => rfl
  | cons x xs ih =>
      rw [rsum_cons, List.filter_cons]
      cases hp : p x with
      | true =>
          rw [if_pos rfl, rsum_cons,
            ih (fun y hy hf => h y (List.mem_cons_of_mem x hy) hf)]
      | false =>
          rw [if_neg Bool.false_ne_true,
            h x (List.mem_cons_self x xs) hp, zero_add,
            ih (fun y hy hf => h y (List.mem_cons_of_mem x hy) hf)]

theorem rsum_ite_single (L : List String) (hnd : L.Nodup) (k : String) (hk : k ∈ L)
    (c : ℝ) : rsum L (fun b => if k = b then c else 0) = c := by
  induction L with
  | nil => cases hk
  | cons x xs ih =>
      rw [List.nodup_cons] at hnd
      rcases List.mem_cons.mp hk with h | h
      · subst h
        rw [rsum_cons, if_pos rfl, rsum_eq_zero, add_zero]
        intro y hy
        rw [if_neg]
        intro hc
        exact hnd.1 (hc ▸ hy)
      · rw [rsum_cons, if_neg, ih hnd.2 h, zero_add]
        intro hc
        exact hnd.1 (hc ▸ h)

theorem rsum_group (key : α → String) (f : α → ℝ) (L : List String) (hnd : L.Nodup)
    (recs : List α) (hcov : ∀ r ∈ recs, key r ∈ L) :
    rsum L (fun b => rsum (recs.filter (fun r => key r = b)) f) = rsum recs f := by
  induction recs with
  | nil =>
      simp only [List.filter_nil]
      exact rsum_eq_zero L _ (fun b _ => rfl)
  | cons r rest ih =>
      have hsplit : ∀ b : String,
          rsum ((r :: rest).filter (fun a => key a = b)) f =
            (if key r = b then f r else 0) + rsum (rest.filter (fun a => key a = b)) f := by
        intro b
        rw [List.filter_cons]
        by_cases hb : key r = b
        · rw [if_pos (by simp [hb]), rsum_cons, if_pos hb]
        · rw [if_neg (by simp [hb]), if_neg hb, zero_add]
      rw [rsum_congr L _ _ (fun b _ => hsplit b), rsum_add, rsum_cons]
      rw [rsum_ite_single L hnd (key r) (hcov r (List.mem_cons_self r rest)) (f r)]
      rw [ih (fun a ha => hcov a (List.mem_cons_of_mem r ha))]

theorem crossSum_congr (l : List α) (f g : α → α → ℝ)
    (h : ∀ x ∈ l, ∀ y ∈ l, f x y = g x y) :
    crossSum f l = crossSum g l := by
  induction l with
  | nil => rfl
  | cons x xs ih =>
      rw [crossSum, crossSum]
      rw [rsum_congr xs _ _
        (fun y hy => h y (List.mem_cons_of_mem x hy) x (List.mem_cons_self x xs))]
      rw [ih (fun a ha b hb =>
        h a (List.mem_cons_of_mem x ha) b (List.mem_cons_of_mem x hb))]

theorem crossSum_filter_vanish (l : List α) (p : α → Bool) (f : α → α → ℝ)
    (h : ∀ x ∈ l, p x = false → ∀ y ∈ l, f x y = 0 ∧ f y x = 0) :
    crossSum f l = crossSum f (l.filter p) := by
  induction l with
  | nil => rfl
  | cons x xs ih =>
      rw [crossSum, List.filter_cons]
      cases hp : p x with
      | true =>
          rw [if_pos rfl, crossSum]
          rw [rsum_filter_vanish xs p (fun y => f y x)
            (fun y hy hf => (h y (List.mem_cons_of_mem x hy) hf x
              (List.mem_cons_self x xs)).1)]
          rw [ih (fun a ha hf b hb =>
            ⟨(h a (List.mem_cons_of_mem x ha) hf b (List.mem_cons_of_mem x hb)).1,
             (h a (List.mem_cons_of_mem x ha) hf b (List.mem_cons_of_mem x hb)).2⟩)]
      | false =>
          rw [if_neg Bool.false_ne_true]
          rw [rsum_eq_zero xs (fun y => f y x)
            (fun y hy => (h x (List.mem_cons_self x xs) hp y
              (List.mem_cons_of_mem x hy)).2), zero_add]
          exact ih (fun a ha hf b hb =>
            ⟨(h a (List.mem_cons_of_mem x ha) hf b (List.mem_cons_of_mem x hb)).1,
             (h a (List.mem_cons_of_mem x ha) hf b (List.mem_cons_of_mem x hb)).2⟩)

theorem crossSum_sym_closed (g : α → ℝ) (c : ℝ) (l : List α) :
    crossSum (fun x y => 2 * c * g x * g y) l =
      c * ((rsum l g) ^ 2 - rsum l (fun x => g x ^ 2)) := by
  induction l with
  | nil => simp [crossSum, rsum_nil]
  | cons x xs ih =>
      rw [crossSum, ih, rsum_cons, rsum_cons]
      have : rsum xs (fun y => 2 * c * g y * g x) = (2 * c * g x) * rsum xs g := by
        rw [← rsum_mul_left]
        exact rsum_congr xs _ _ (fun y _ => by ring)
      rw [this]
      ring

theorem sqrt_max_drop (x : ℝ) : Real.sqrt (max x 0) = Real.sqrt x := by
  rcases le_or_lt 0 x with h | h
  · rw [max_eq_left h]
  · rw [max_eq_right (le_of_lt h), Real.sqrt_zero]
    symm
    rw [Real.sqrt_eq_zero']
    exact le_of_lt h

/-! ## Congruence of the generic calculator in the bucket slice

Every per-bucket quantity of `SimmCalculator::margin` depends on the record
list only through the records of that bucket. -/

theorem concRisk_congr (cfg : SimmCfg) (rt : RiskType) (calcCcy : String)
    (recs1 recs2 : List (CrifRec ℝ)) (b q : String)
    (h : bSlice recs1 b = bSlice recs2 b) :
    concRisk cfg rt calcCcy recs1 b q = concRisk cfg rt calcCcy recs2 b q := by
  simp only [concRisk, h]

theorem wsOf_congr (cfg : SimmCfg) (rt : RiskType) (calcCcy : String)
    (recs1 recs2 : List (CrifRec ℝ)) (b : String) (r : CrifRec ℝ)
    (h : bSlice recs1 b = bSlice recs2 b) :
    wsOf cfg rt calcCcy recs1 b r = wsOf cfg rt calcCcy recs2 b r := by
  simp only [wsOf, concRisk_congr cfg rt calcCcy recs1 recs2 b r.qualifier h]

theorem fConc_congr (cfg : SimmCfg) (rt : RiskType) (calcCcy : String)
    (recs1 recs2 : List (CrifRec ℝ)) (b : String) (o i : CrifRec ℝ)
    (h : bSlice recs1 b = bSlice recs2 b) :
    fConc cfg rt calcCcy recs1 b o i = fConc cfg rt calcCcy recs2 b o i := by
  simp only [fConc, concRisk_congr cfg rt calcCcy recs1 recs2 b o.qualifier h,
    concRisk_congr cfg rt calcCcy recs1 recs2 b i.qualifier h]

theorem kSq_congr (cfg : SimmCfg) (rt : RiskType) (calcCcy : String)
    (recs1 recs2 : List (CrifRec ℝ)) (b : String)
    (h : bSlice recs1 b = bSlice recs2 b) :
    kSq cfg rt calcCcy recs1 b = kSq cfg rt calcCcy recs2 b := by
  rw [kSq, kSq]
  simp only [bEff, h]
  congr 1
  · exact rsum_congr _ _ _
      (fun r _ => by rw [wsOf_congr cfg rt calcCcy recs1 recs2 b r h])
  · exact crossSum_congr _ _ _
      (fun o _ i _ => by
        rw [wsOf_congr cfg rt calcCcy recs1 recs2 b o h,
          wsOf_congr cfg rt calcCcy recs1 recs2 b i h,
          fConc_congr cfg rt calcCcy recs1 recs2 b o i h])

theorem kB_congr (cfg : SimmCfg) (rt : RiskType) (calcCcy : String)
    (recs1 recs2 : List (CrifRec ℝ)) (b : String)
    (h : bSlice recs1 b = bSlice recs2 b) :
    kB cfg rt calcCcy recs1 b = kB cfg rt calcCcy recs2 b := by
  rw [kB, kB, kSq_congr cfg rt calcCcy recs1 recs2 b h]

theorem sumWS_congr (cfg : SimmCfg) (rt : RiskType) (calcCcy : String)
    (recs1 recs2 : List (CrifRec ℝ)) (b : String)
    (h : bSlice recs1 b = bSlice recs2 b) :
    sumWS cfg rt calcCcy recs1 b = sumWS cfg rt calcCcy recs2 b := by
  rw [sumWS, sumWS]
  simp only [bEff, h]
  exact rsum_congr _ _ _
    (fun r _ => by rw [wsOf_congr cfg rt calcCcy recs1 recs2 b r h])

theorem sB_congr (cfg : SimmCfg) (rt : RiskType) (calcCcy : String)
    (recs1 recs2 : List (CrifRec ℝ)) (b : String)
    (h : bSlice recs1 b = bSlice recs2 b) :
    sB cfg rt calcCcy recs1 b = sB cfg rt calcCcy recs2 b := by
  rw [sB, sB, sumWS_congr cfg rt calcCcy recs1 recs2 b h,
    kB_congr cfg rt calcCcy recs1 recs2 b h]

theorem repQual_congr (recs1 recs2 : List (CrifRec ℝ)) (b : String)
    (h : bSlice recs1 b = bSlice recs2 b) :
    repQual recs1 b = repQual recs2 b := by
  rw [repQual, repQual, h]

theorem gammaB_congr (cfg : SimmCfg) (rt : RiskType) (calcCcy : String)
    (recs1 recs2 : List (CrifRec ℝ)) (bo bi : String)
    (ho : bSlice recs1 bo = bSlice recs2 bo) (hi : bSlice recs1 bi = bSlice recs2 bi) :
    gammaB cfg rt calcCcy recs1 bo bi = gammaB cfg rt calcCcy recs2 bo bi := by
  rw [gammaB, gammaB, repQual_congr recs1 recs2 bo ho, repQual_congr recs1 recs2 bi hi]

/-! ## First-occurrence deduplication and filters -/

theorem firstDedupAux_filter_none (l : List String) (p : String → Bool) :
    ∀ seen, (∀ x ∈ l, p x = false) → (firstDedupAux seen l).filter p = [] := by
  induction l with
  | nil => intro seen _; rfl
  | cons y ys ih =>
      intro seen h
      rw [firstDedupAux]
      by_cases hy : y ∈ seen
      · rw [if_pos hy]
        exact ih seen (fun x hx => h x (List.mem_cons_of_mem y hx))
      · rw [if_neg hy, List.filter_cons,
          if_neg (by rw [h y (List.mem_cons_self y ys)]; exact Bool.false_ne_true)]
        exact ih (y :: seen) (fun x hx => h x (List.mem_cons_of_mem y hx))

theorem firstDedupAux_filter_append (l1 l2 : List String) (p : String → Bool)
    (h1 : ∀ x ∈ l1, p x = true) (h2 : ∀ x ∈ l2, p x = false) :
    ∀ seen, (firstDedupAux seen (l1 ++ l2)).filter p = firstDedupAux seen l1 := by
  induction l1 with
  | nil =>
      intro seen
      rw [List.nil_append, firstDedupAux]
      exact firstDedupAux_filter_none l2 p seen h2
  | cons y ys ih =>
      intro seen
      rw [List.cons_append, firstDedupAux, firstDedupAux]
      by_cases hy : y ∈ seen
      · rw [if_pos hy, if_pos hy]
        exact ih (fun x hx => h1 x (List.mem_cons_of_mem y hx)) seen
      · rw [if_neg hy, if_neg hy, List.filter_cons,
          if_pos (h1 y (List.mem_cons_self y ys))]
        rw [ih (fun x hx => h1 x (List.mem_cons_of_mem y hx)) (y :: seen)]

theorem firstDedup_filter_append (l1 l2 : List String) (p : String → Bool)
    (h1 : ∀ x ∈ l1, p x = true) (h2 : ∀ x ∈ l2, p x = false) :
    (firstDedup (l1 ++ l2)).filter p = firstDedup l1 := by
  rw [firstDedup, firstDedup]
  exact firstDedupAux_filter_append l1 l2 p h1 h2 []

/-! ## Claim C5: residual additivity of the generic margin -/

theorem marginAll_eq_spec (cfg : SimmCfg) (rt : RiskType) (calcCcy : String)
    (l : List (CrifRec ℝ)) :
    marginAll cfg rt calcCcy l = specMarginAll cfg rt calcCcy l := by
  rw [marginAll, specMarginAll, sqrt_max_drop]

/-- C5.  The total of the generic Delta/Vega calculator is the non-residual
    cross-bucket square root plus `K_residual` added additively, and adding
    sensitivities that form a standalone "Residual" bucket to an input
    without one increases the total by exactly that bucket's standalone
    `K_residual` — which is also the total margin of the residual records
    alone. -/
theorem residual_additivity (cfg : SimmCfg) (rt : RiskType) (calcCcy : String)
    (recs res : List (CrifRec ℝ))
    (hrecs : ∀ r ∈ recs, r.bucket ≠ "Residual")
    (hres : ∀ r ∈ res, r.bucket = "Residual") :
    (∀ l : List (CrifRec ℝ),
      marginAll cfg rt calcCcy l = specMarginAll cfg rt calcCcy l) ∧
      marginAll cfg rt calcCcy (recs ++ res) =
        marginAll cfg rt calcCcy recs + kResidual cfg rt calcCcy (recs ++ res) ∧
      kResidual cfg rt calcCcy (recs ++ res) = marginAll cfg rt calcCcy res := by
  have hSliceNe : ∀ b : String, b ≠ "Residual" →
      bSlice (recs ++ res) b = bSlice recs b := by
    intro b hb
    rw [bSlice, bSlice, List.filter_append]
    have : res.filter (fun r => r.bucket = b) = [] := by
      rw [List.filter_eq_nil_iff]
      intro r hr
      simp only [decide_eq_true_eq]
      rw [hres r hr]
      exact fun h => hb h.symm
    rw [this, List.append_nil]
  have hSliceResFull : bSlice (recs ++ res) "Residual" = res := by
    rw [bSlice, List.filter_append]
    have h1 : recs.filter (fun r => r.bucket = "Residual") = [] := by
      rw [List.filter_eq_nil_iff]
      intro r hr
      simp only [decide_eq_true_eq]
      exact hrecs r hr
    have h2 : res.filter (fun r => r.bucket = "Residual") = res :=
      List.filter_eq_self.mpr (fun r hr => by
        simp only [decide_eq_true_eq]
        exact hres r hr)
    rw [h1, h2, List.nil_append]
  have hSliceResSelf : bSlice res "Residual" = res := by
    rw [bSlice]
    exact List.filter_eq_self.mpr (fun r hr => by
      simp only [decide_eq_true_eq]
      exact hres r hr)
  have hKeysMemNe : ∀ b ∈ keysOf recs, b ≠ "Residual" := by
    intro b hb
    rw [keysOf, mem_firstDedup, List.mem_map] at hb
    obtain ⟨r, hr, hrb⟩ := hb
    rw [← hrb]
    exact hrecs r hr
  have hkeysNR : nonResKeys (recs ++ res) = keysOf recs := by
    rw [nonResKeys, keysOf, List.map_append]
    rw [firstDedup_filter_append (recs.map (fun r => r.bucket))
      (res.map (fun r => r.bucket)) _
      (by
        intro x hx
        rw [List.mem_map] at hx
        obtain ⟨r, hr, hrx⟩ := hx
        simp only [decide_eq_true_eq]
        rw [← hrx]
        exact hrecs r hr)
      (by
        intro x hx
        rw [List.mem_map] at hx
        obtain ⟨r, hr, hrx⟩ := hx
        simp only [decide_eq_false_iff_not, not_not]
        rw [← hrx]
        exact hres r hr)]
    rfl
  have hkeysNR0 : nonResKeys recs = keysOf recs := by
    rw [nonResKeys]
    exact List.filter_eq_self.mpr (fun b hb => by
      simp only [decide_eq_true_eq]
      exact hKeysMemNe b hb)
  have hResNotMem : "Residual" ∉ keysOf recs := by
    intro hc
    exact hKeysMemNe "Residual" hc rfl
  have hInterEq : interSq cfg rt calcCcy (recs ++ res) = interSq cfg rt calcCcy recs := by
    rw [interSq, interSq, hkeysNR, hkeysNR0]
    congr 1
    · exact rsum_congr _ _ _ (fun b hb => by
        rw [kB_congr cfg rt calcCcy (recs ++ res) recs b
          (hSliceNe b (hKeysMemNe b hb))])
    · exact crossSum_congr _ _ _ (fun bo hbo bi hbi => by
        rw [sB_congr cfg rt calcCcy (recs ++ res) recs bo
            (hSliceNe bo (hKeysMemNe bo hbo)),
          sB_congr cfg rt calcCcy (recs ++ res) recs bi
            (hSliceNe bi (hKeysMemNe bi hbi)),
          gammaB_congr cfg rt calcCcy (recs ++ res) recs bo bi
            (hSliceNe bo (hKeysMemNe bo hbo)) (hSliceNe bi (hKeysMemNe bi hbi))])
  have hKResRecs : kResidual cfg rt calcCcy recs = 0 := by
    rw [kResidual, if_neg hResNotMem]
  have hKResEq : kResidual cfg rt calcCcy (recs ++ res) = marginAll cfg rt calcCcy res := by
    cases res with
    | nil =>
        rw [List.append_nil, hKResRecs, marginAll]
        have hkeys : nonResKeys ([] : List (CrifRec ℝ)) = [] := rfl
        rw [interSq, hkeys, kResidual]
        have : "Residual" ∉ keysOf ([] : List (CrifRec ℝ)) := by
          rw [keysOf]
          simp [firstDedup, firstDedupAux]
        rw [if_neg this]
        norm_num [rsum_nil, crossSum]
    | cons r0 tl =>
        have hResMemApp : "Residual" ∈ keysOf (recs ++ (r0 :: tl)) := by
          rw [keysOf, mem_firstDedup, List.map_append, List.mem_append]
          right
          rw [List.map_cons]
          rw [hres r0 (List.mem_cons_self r0 tl)]
          exact List.mem_cons_self _ _
        have hResMemRes : "Residual" ∈ keysOf (r0 :: tl) := by
          rw [keysOf, mem_firstDedup, List.map_cons]
          rw [hres r0 (List.mem_cons_self r0 tl)]
          exact List.mem_cons_self _ _
        have hresK : ∀ r ∈ r0 :: tl, r.bucket = "Residual" := hres
        have hNRres : nonResKeys (r0 :: tl) = [] := by
          rw [nonResKeys, keysOf, firstDedup]
          exact firstDedupAux_filter_none _ _ []
            (fun x hx => by
              rw [List.mem_map] at hx
              obtain ⟨r, hr, hrx⟩ := hx
              simp only [decide_eq_false_iff_not, not_not]
              rw [← hrx]
              exact hresK r hr)
        rw [kResidual, if_pos hResMemApp, marginAll, interSq, hNRres, kResidual,
          if_pos hResMemRes]
        rw [kB_congr cfg rt calcCcy (recs ++ (r0 :: tl)) (r0 :: tl) "Residual"
          (by rw [hSliceResFull, hSliceResSelf])]
        norm_num [rsum_nil, crossSum]
  refine ⟨marginAll_eq_spec cfg rt calcCcy, ?_, hKResEq⟩
  rw [marginAll, marginAll, hInterEq, hKResRecs, add_zero]

/-- C5 witness: one Credit vega sensitivity in bucket "1" plus one in the
    "Residual" bucket. -/
theorem residual_additivity_witness :
    (∀ l : List (CrifRec ℝ),
      marginAll ceCfgC2 RiskType.CreditVol "USD" l =
        specMarginAll ceCfgC2 RiskType.CreditVol "USD" l) ∧
      marginAll ceCfgC2 RiskType.CreditVol "USD" ([ceRecC2] ++ [ceRecResidual]) =
        marginAll ceCfgC2 RiskType.CreditVol "USD" [ceRecC2] +
          kResidual ceCfgC2 RiskType.CreditVol "USD" ([ceRecC2] ++ [ceRecResidual]) ∧
      kResidual ceCfgC2 RiskType.CreditVol "USD" ([ceRecC2] ++ [ceRecResidual]) =
        marginAll ceCfgC2 RiskType.CreditVol "USD" [ceRecResidual] :=
  residual_additivity ceCfgC2 RiskType.CreditVol "USD" [ceRecC2] [ceRecResidual]
    (by
      intro r hr
      rw [List.mem_singleton] at hr
      subst hr
      intro hc
      simp [ceRecC2] at hc)
    (by
      intro r hr
      rw [List.mem_singleton] at hr
      subst hr
      rfl)

/-! ## Claim C9: concentration monotonicity -/

theorem rsum_map {α : Type} (l : List α) (g : α → α) (f : α → ℝ) :
    rsum (l.map g) f = rsum l (fun r => f (g r)) := by
  induction l with
  | nil => rfl
  | cons x xs ih => rw [List.map_cons, rsum_cons, rsum_cons, ih]

theorem filter_map_pred {α : Type} (l : List α) (g : α → α) (p : α → Bool)
    (h : ∀ r, p (g r) = p r) : (l.map g).filter p = (l.filter p).map g := by
  induction l with
  | nil => rfl
  | cons x xs ih =>
      rw [List.map_cons, List.filter_cons, List.filter_cons, h x]
      cases hp : p x with
      | true => rw [if_pos rfl, if_pos rfl, List.map_cons, ih]
      | false => rw [if_neg Bool.false_ne_true, if_neg Bool.false_ne_true, ih]

theorem scaleQual_bucket (q : String) (c : ℝ) (r : CrifRec ℝ) :
    (scaleQual q c r).bucket = r.bucket := by
  rw [scaleQual]
  split <;> rfl

theorem scaleQual_qualifier (q : String) (c : ℝ) (r : CrifRec ℝ) :
    (scaleQual q c r).qualifier = r.qualifier := by
  rw [scaleQual]
  split <;> rfl

theorem scaleQual_label1 (q : String) (c : ℝ) (r : CrifRec ℝ) :
    (scaleQual q c r).label1 = r.label1 := by
  rw [scaleQual]
  split <;> rfl

theorem scaleQual_amount_of_qual (q : String) (c : ℝ) (r : CrifRec ℝ)
    (hq : r.qualifier = q) : (scaleQual q c r).amountUsd = c * r.amountUsd := by
  rw [scaleQual, if_pos hq]

/-- C9.  Doubling the net sensitivity amounts of a single qualifier, with
    the concentration threshold and all other inputs fixed, does not
    decrease the qualifier's concentration risk
    `CR_q = max(1, sqrt(|Σ amountUsd·σ·HVR| / threshold))`, nor the
    magnitude of the qualifier's concentration-risk-scaled weighted
    sensitivity `|RW · amountUsd·σ·HVR · CR_q|`. -/
theorem concentration_monotonicity (cfg : SimmCfg) (rt : RiskType) (calcCcy : String)
    (recs : List (CrifRec ℝ)) (b q : String) (r : CrifRec ℝ) (hq : r.qualifier = q) :
    concRisk cfg rt calcCcy recs b q ≤
        concRisk cfg rt calcCcy (recs.map (scaleQual q 2)) b q ∧
      |wsOf cfg rt calcCcy recs b r| ≤
        |wsOf cfg rt calcCcy (recs.map (scaleQual q 2)) b (scaleQual q 2 r)| := by
  have hslice : (bSlice (recs.map (scaleQual q 2)) b).filter (fun a => a.qualifier = q) =
      ((bSlice recs b).filter (fun a => a.qualifier = q)).map (scaleQual q 2) := by
    rw [bSlice, bSlice]
    rw [filter_map_pred recs (scaleQual q 2) _
      (fun a => by rw [scaleQual_bucket])]
    rw [filter_map_pred _ (scaleQual q 2) _
      (fun a => by rw [scaleQual_qualifier])]
  have hsum : rsum ((bSlice (recs.map (scaleQual q 2)) b).filter (fun a => a.qualifier = q))
        (fun a => a.amountUsd * cfg.sigmaF rt a.qualifier a.label1 calcCcy * cfg.hvrF rt) =
      2 * rsum ((bSlice recs b).filter (fun a => a.qualifier = q))
        (fun a => a.amountUsd * cfg.sigmaF rt a.qualifier a.label1 calcCcy * cfg.hvrF rt) := by
    rw [hslice, rsum_map, ← rsum_mul_left]
    refine rsum_congr _ _ _ (fun a ha => ?_)
    rw [List.mem_filter] at ha
    have haq : a.qualifier = q := by
      have := ha.2
      simpa using this
    rw [scaleQual_amount_of_qual q 2 a haq, scaleQual_qualifier, scaleQual_label1]
    ring
  set S := rsum ((bSlice recs b).filter (fun a => a.qualifier = q))
    (fun a => a.amountUsd * cfg.sigmaF rt a.qualifier a.label1 calcCcy * cfg.hvrF rt) with hS
  have hcr : concRisk cfg rt calcCcy recs b q ≤
      concRisk cfg rt calcCcy (recs.map (scaleQual q 2)) b q := by
    rw [concRisk, concRisk, hsum, ← hS]
    refine max_le_max (le_refl 1) (Real.sqrt_le_sqrt ?_)
    rw [mul_div_assoc, abs_mul]
    have h2 : |(2 : ℝ)| = 2 := by norm_num
    rw [h2]
    have := abs_nonneg (S / cfg.thr rt q)
    linarith
  refine ⟨hcr, ?_⟩
  have hr2 : (scaleQual q 2 r).qualifier = r.qualifier := scaleQual_qualifier q 2 r
  have hws2 : wsOf cfg rt calcCcy (recs.map (scaleQual q 2)) b (scaleQual q 2 r) =
      2 * (cfg.weight rt r.qualifier r.label1 calcCcy *
        (r.amountUsd * cfg.sigmaF rt r.qualifier r.label1 calcCcy * cfg.hvrF rt)) *
        concRisk cfg rt calcCcy (recs.map (scaleQual q 2)) b q := by
    rw [wsOf, hr2, scaleQual_label1, scaleQual_amount_of_qual q 2 r hq, hq]
    ring
  have hws1 : wsOf cfg rt calcCcy recs b r =
      (cfg.weight rt r.qualifier r.label1 calcCcy *
        (r.amountUsd * cfg.sigmaF rt r.qualifier r.label1 calcCcy * cfg.hvrF rt)) *
        concRisk cfg rt calcCcy recs b q := by
    rw [wsOf, hq]
  set X := cfg.weight rt r.qualifier r.label1 calcCcy *
    (r.amountUsd * cfg.sigmaF rt r.qualifier r.label1 calcCcy * cfg.hvrF rt) with hX
  have hcr1 : (1 : ℝ) ≤ concRisk cfg rt calcCcy recs b q := le_max_left 1 _
  have hcr1' : (1 : ℝ) ≤ concRisk cfg rt calcCcy (recs.map (scaleQual q 2)) b q :=
    le_max_left 1 _
  have e1 : |X * concRisk cfg rt calcCcy recs b q| =
      |X| * concRisk cfg rt calcCcy recs b q := by
    rw [abs_mul, abs_of_nonneg (by linarith : (0 : ℝ) ≤ concRisk cfg rt calcCcy recs b q)]
  have e2 : |2 * X * concRisk cfg rt calcCcy (recs.map (scaleQual q 2)) b q| =
      2 * |X| * concRisk cfg rt calcCcy (recs.map (scaleQual q 2)) b q := by
    rw [abs_mul, abs_mul, abs_two,
      abs_of_nonneg
        (by linarith : (0 : ℝ) ≤ concRisk cfg rt calcCcy (recs.map (scaleQual q 2)) b q)]
  rw [hws1, hws2, e1, e2]
  have hXnn : (0 : ℝ) ≤ |X| := abs_nonneg X
  nlinarith

/-- C9 witness: the single Credit vega sensitivity of one USD at unit
    threshold. -/
theorem concentration_monotonicity_witness :
    concRisk ceCfgC2 RiskType.CreditVol "USD" [ceRecC2] "1" "Q1" ≤
        concRisk ceCfgC2 RiskType.CreditVol "USD" ([ceRecC2].map (scaleQual "Q1" 2)) "1" "Q1" ∧
      |wsOf ceCfgC2 RiskType.CreditVol "USD" [ceRecC2] "1" ceRecC2| ≤
        |wsOf ceCfgC2 RiskType.CreditVol "USD" ([ceRecC2].map (scaleQual "Q1" 2)) "1"
          (scaleQual "Q1" 2 ceRecC2)| :=
  concentration_monotonicity ceCfgC2 RiskType.CreditVol "USD" [ceRecC2] "1" "Q1" ceRecC2
    rfl

/-! ## Claim C10: non-negativity of all returned margin values -/

theorem kB_nonneg (cfg : SimmCfg) (rt : RiskType) (calcCcy : String)
    (recs : List (CrifRec ℝ)) (b : String) : 0 ≤ kB cfg rt calcCcy recs b :=
  Real.sqrt_nonneg _

theorem kResidual_nonneg (cfg : SimmCfg) (rt : RiskType) (calcCcy : String)
    (recs : List (CrifRec ℝ)) : 0 ≤ kResidual cfg rt calcCcy recs := by
  rw [kResidual]
  split
  · exact kB_nonneg cfg rt calcCcy recs "Residual"
  · exact le_refl 0

theorem marginAll_nonneg (cfg : SimmCfg) (rt : RiskType) (calcCcy : String)
    (recs : List (CrifRec ℝ)) : 0 ≤ marginAll cfg rt calcCcy recs :=
  add_nonneg (Real.sqrt_nonneg _) (kResidual_nonneg cfg rt calcCcy recs)

theorem cK_nonneg (cfg : SimmCfg) (rt : RiskType) (calcCcy : String) (mult : ℝ)
    (recs : List (CrifRec ℝ)) (b : String) : 0 ≤ cK cfg rt calcCcy mult recs b :=
  Real.sqrt_nonneg _

theorem cMainMargin_nonneg (cfg : SimmCfg) (rt : RiskType) (calcCcy : String) (mult : ℝ)
    (rfLabels : Bool) (recs : List (CrifRec ℝ)) :
    0 ≤ cMainMargin cfg rt calcCcy mult rfLabels recs := by
  rw [cMainMargin]
  split
  · exact le_refl 0
  · exact le_max_right _ 0

theorem cResMargin_nonneg (cfg : SimmCfg) (rt : RiskType) (calcCcy : String) (mult : ℝ)
    (rfLabels : Bool) (recs : List (CrifRec ℝ)) :
    0 ≤ cResMargin cfg rt calcCcy mult rfLabels recs := by
  rw [cResMargin]
  split
  · exact le_refl 0
  · exact le_max_right _ 0

theorem curvAll_nonneg (cfg : SimmCfg) (rt : RiskType) (calcCcy : String) (mult : ℝ)
    (rfLabels : Bool) (recs : List (CrifRec ℝ)) :
    0 ≤ curvAll cfg rt calcCcy mult rfLabels recs :=
  add_nonneg (cMainMargin_nonneg cfg rt calcCcy mult rfLabels recs)
    (cResMargin_nonneg cfg rt calcCcy mult rfLabels recs)

theorem irCvAll_nonneg (cfg : SimmCfg) (mult : ℝ) (recs : List (CrifRec ℝ))
    (hscal : 0 ≤ cfg.scalingCM) : 0 ≤ irCvAll cfg mult recs := by
  rw [irCvAll]
  split
  · exact le_refl 0
  · exact mul_nonneg hscal (le_max_right _ 0)

/-- C10.  Every value in the per-bucket margin maps returned by the five
    calculators — the per-bucket/per-qualifier entries, the "Residual"
    entry when present, and the "All" total — is non-negative, provided the
    configuration's curvature margin scaling factor is non-negative. -/
theorem margins_nonnegative (cfg : SimmCfg) (rt : RiskType) (calcCcy : String)
    (mult : ℝ) (rfLabels : Bool) (recs : List (CrifRec ℝ))
    (hscal : 0 ≤ cfg.scalingCM) :
    (∀ p ∈ marginMap cfg rt calcCcy recs, 0 ≤ p.2) ∧
      (∀ p ∈ curvMap cfg rt calcCcy mult rfLabels recs, 0 ≤ p.2) ∧
      (∀ p ∈ irDeltaMap cfg calcCcy recs, 0 ≤ p.2) ∧
      (∀ p ∈ irVegaMap cfg calcCcy recs, 0 ≤ p.2) ∧
      (∀ p ∈ irCvMap cfg mult recs, 0 ≤ p.2) := by
  refine ⟨?_, ?_, ?_, ?_, ?_⟩
  · intro p hp
    rw [marginMap] at hp
    split at hp
    · simp only [List.mem_append, List.mem_map, List.mem_singleton] at hp
      rcases hp with ((hp | hp) | hp)
      · obtain ⟨a, -, hpe⟩ := hp
        rw [← hpe]
        exact abs_nonneg _
      · split at hp
        · cases hp
        · rw [List.mem_singleton] at hp
          rw [hp]
          exact abs_nonneg _
      · rw [hp]
        exact marginAll_nonneg cfg rt calcCcy recs
    · simp only [List.mem_append, List.mem_map, List.mem_singleton] at hp
      rcases hp with ((hp | hp) | hp)
      · split at hp
        · cases hp
        · rw [List.mem_singleton] at hp
          rw [hp]
          exact kResidual_nonneg cfg rt calcCcy recs
      · obtain ⟨a, -, hpe⟩ := hp
        rw [← hpe]
        exact kB_nonneg cfg rt calcCcy recs a
      · rw [hp]
        exact marginAll_nonneg cfg rt calcCcy recs
  · intro p hp
    rw [curvMap] at hp
    split at hp
    · simp only [List.mem_append, List.mem_map, List.mem_singleton] at hp
      rcases hp with (hp | hp)
      · obtain ⟨a, -, hpe⟩ := hp
        rw [← hpe]
        exact abs_nonneg _
      · rw [hp]
        exact curvAll_nonneg cfg rt calcCcy mult rfLabels recs
    · simp only [List.mem_append, List.mem_map, List.mem_singleton] at hp
      rcases hp with ((hp | hp) | hp)
      · obtain ⟨a, -, hpe⟩ := hp
        rw [← hpe]
        exact cK_nonneg cfg rt calcCcy mult recs a
      · split at hp
        · cases hp
        · rw [List.mem_singleton] at hp
          rw [hp]
          exact cResMargin_nonneg cfg rt calcCcy mult rfLabels recs
      · rw [hp]
        exact curvAll_nonneg cfg rt calcCcy mult rfLabels recs
  · intro p hp
    rw [irDeltaMap] at hp
    simp only [List.mem_append, List.mem_map, List.mem_singleton] at hp
    rcases hp with (hp | hp)
    · obtain ⟨a, -, hpe⟩ := hp
      rw [← hpe]
      exact Real.sqrt_nonneg _
    · rw [hp]
      exact Real.sqrt_nonneg _
  · intro p hp
    rw [irVegaMap] at hp
    simp only [List.mem_append, List.mem_map, List.mem_singleton] at hp
    rcases hp with (hp | hp)
    · obtain ⟨a, -, hpe⟩ := hp
      rw [← hpe]
      exact Real.sqrt_nonneg _
    · rw [hp]
      exact Real.sqrt_nonneg _
  · intro p hp
    rw [irCvMap] at hp
    split at hp
    · rw [List.mem_singleton] at hp
      rw [hp]
    · simp only [List.mem_append, List.mem_map, List.mem_singleton] at hp
      rcases hp with (hp | hp)
      · obtain ⟨a, -, hpe⟩ := hp
        rw [← hpe]
        exact Real.sqrt_nonneg _
      · rw [hp]
        exact irCvAll_nonneg cfg mult recs hscal

/-- C10 witness: the five calculators at the unit configuration (scaling
    one half) on the C2 record. -/
theorem margins_nonnegative_witness :
    (∀ p ∈ marginMap ceCfgC2 RiskType.CreditVol "USD" [ceRecC2], 0 ≤ p.2) ∧
      (∀ p ∈ curvMap ceCfgC2 RiskType.CreditVol "USD" 1 true [ceRecC2], 0 ≤ p.2) ∧
      (∀ p ∈ irDeltaMap ceCfgC2 "USD" [ceRecC2], 0 ≤ p.2) ∧
      (∀ p ∈ irVegaMap ceCfgC2 "USD" [ceRecC2], 0 ≤ p.2) ∧
      (∀ p ∈ irCvMap ceCfgC2 1 [ceRecC2], 0 ≤ p.2) :=
  margins_nonnegative ceCfgC2 RiskType.CreditVol "USD" 1 true [ceRecC2] (by norm_num [ceCfgC2])

/-! ## Claim C2: the non-IR curvature margin formula -/

theorem sum_over_nonres_buckets (recs : List (CrifRec ℝ)) (f : CrifRec ℝ → ℝ) :
    rsum (nonResKeys recs) (fun b => rsum (bSlice recs b) f) =
      rsum (recs.filter (fun r => r.bucket ≠ "Residual")) f := by
  have hnd : (nonResKeys recs).Nodup := (nodup_firstDedup _).filter _
  have hcov : ∀ r ∈ recs.filter (fun a => a.bucket ≠ "Residual"),
      (fun a : CrifRec ℝ => a.bucket) r ∈ nonResKeys recs := by
    intro r hr
    rw [List.mem_filter] at hr
    rw [nonResKeys, List.mem_filter, keysOf, mem_firstDedup]
    exact ⟨List.mem_map_of_mem _ hr.1, hr.2⟩
  have hgroup := rsum_group (fun a : CrifRec ℝ => a.bucket) f (nonResKeys recs) hnd
    (recs.filter (fun a => a.bucket ≠ "Residual")) hcov
  rw [← hgroup]
  refine rsum_congr _ _ _ (fun b hb => ?_)
  have hbR : b ≠ "Residual" := by
    rw [nonResKeys, List.mem_filter] at hb
    simpa using hb.2
  congr 1
  rw [bSlice, List.filter_filter]
  refine (List.filter_congr (fun r _ => ?_)).symm
  by_cases hrb : r.bucket = b
  · simp [hrb, hbR]
  · simp [hrb]

theorem residual_slice_empty (recs : List (CrifRec ℝ))
    (h : "Residual" ∉ keysOf recs) : bSlice recs "Residual" = [] := by
  rw [bSlice, List.filter_eq_nil_iff]
  intro r hr
  simp only [decide_eq_true_eq]
  intro hc
  apply h
  rw [keysOf, mem_firstDedup]
  rw [← hc]
  exact List.mem_map_of_mem _ hr

theorem cSumSensis_eq_spec (cfg : SimmCfg) (rt : RiskType) (calcCcy : String) (mult : ℝ)
    (recs : List (CrifRec ℝ)) :
    cSumSensis cfg rt calcCcy mult recs = specCurvNonResSum cfg rt calcCcy mult recs := by
  rw [cSumSensis, specCurvNonResSum]
  rw [← sum_over_nonres_buckets recs (cvrZ cfg rt calcCcy mult)]
  exact rsum_congr _ _ _ (fun b _ => by rw [cSumWS])

theorem cResSum_eq_spec (cfg : SimmCfg) (rt : RiskType) (calcCcy : String) (mult : ℝ)
    (recs : List (CrifRec ℝ)) :
    cResSum cfg rt calcCcy mult recs = specCurvResSum cfg rt calcCcy mult recs := by
  rw [cResSum, specCurvResSum]
  split
  · rw [cSumWS, bSlice]
  · rw [show recs.filter (fun r => r.bucket = "Residual") =
        bSlice recs "Residual" from rfl]
    rw [residual_slice_empty recs (by assumption)]
    rfl

/-- C2 (amended).  For every non-IR curvature computation, the "All" value
    equals the unscaled spec formula: the non-residual part
    `max(ΣCVR + λ(θ)·sqrt(Σ K_b² + cross terms), 0)` with
    `θ = min(ΣCVR/Σ|CVR|, 0)` and `ΣCVR` the record-wise non-residual sum
    (zero when `Σ|CVR|` vanishes), plus the residual part
    `max(ΣCVR_res + λ(θ_res)·K_residual, 0)` with its own `θ`/`λ` added
    additively — no configuration scaling factor is applied (the scaling
    factor enters only the Interest-Rate curvature margin). -/
theorem curvature_margin_formula (cfg : SimmCfg) (rt : RiskType) (calcCcy : String)
    (mult : ℝ) (rfLabels : Bool) (recs : List (CrifRec ℝ)) :
    curvAll cfg rt calcCcy mult rfLabels recs =
      specCurvAll cfg rt calcCcy mult rfLabels recs := by
  rw [curvAll, specCurvAll]
  congr 1
  · rw [cMainMargin]
    split
    · rfl
    · rw [cSumSensis_eq_spec, specTheta, sqrt_max_drop]
  · rw [cResMargin]
    split
    · rfl
    · rw [cResSum_eq_spec, specTheta]

/-- C2 (counterexample).  A single Credit vega sensitivity of one USD at
    unit weights, normal-quantile stand-in 2 and curvature scaling factor
    one half: the code's curvature total is 4 (no scaling is applied in the
    generic curvature calculator), while the claimed scaled total is 2. -/
theorem curvature_scaling_counterexample :
    curvAll ceCfgC2 RiskType.CreditVol "USD" 1 true [ceRecC2] = 4 ∧
      specCurvAllScaled ceCfgC2 RiskType.CreditVol "USD" 1 true [ceRecC2] = 2 ∧
      curvAll ceCfgC2 RiskType.CreditVol "USD" 1 true [ceRecC2] ≠
        specCurvAllScaled ceCfgC2 RiskType.CreditVol "USD" 1 true [ceRecC2] := by
  have hkeys : keysOf [ceRecC2] = ["1"] := by
    simp [keysOf, firstDedup, firstDedupAux, ceRecC2]
  have hnr : nonResKeys [ceRecC2] = ["1"] := by
    rw [nonResKeys, hkeys]
    simp
  have hslice : bSlice [ceRecC2] "1" = [ceRecC2] := by
    simp [bSlice, ceRecC2]
  have hcvr : cvrZ ceCfgC2 RiskType.CreditVol "USD" 1 ceRecC2 = 1 := by
    simp [cvrZ, cvrRaw, ceCfgC2, ceRecC2]
  have hck : cK ceCfgC2 RiskType.CreditVol "USD" 1 [ceRecC2] "1" = 1 := by
    rw [cK, ckSq, hslice]
    rw [rsum_cons, rsum_nil, crossSum, crossSum, rsum_nil, hcvr]
    norm_num
  have hsum : cSumWS ceCfgC2 RiskType.CreditVol "USD" 1 [ceRecC2] "1" = 1 := by
    rw [cSumWS, hslice, rsum_cons, rsum_nil, hcvr, add_zero]
  have hquals : qualsOfBucket [ceRecC2] "1" = ["Q1"] := by
    rw [qualsOfBucket, hslice]
    simp [firstDedup, firstDedupAux, ceRecC2]
  have habsq : cAbsQual ceCfgC2 RiskType.CreditVol "USD" 1 true [ceRecC2] "1" "Q1" = 1 := by
    rw [cAbsQual, hslice]
    have : ([ceRecC2].filter (fun r => r.qualifier = "Q1")) = [ceRecC2] := by
      simp [ceRecC2]
    rw [this, rsum_cons, rsum_nil, if_pos rfl, hcvr]
    norm_num
  have habs : cSumAbs ceCfgC2 RiskType.CreditVol "USD" 1 true [ceRecC2] "1" = 1 := by
    rw [cSumAbs, hquals, rsum_cons, rsum_nil, habsq]
    norm_num
  have hss : cSumSensis ceCfgC2 RiskType.CreditVol "USD" 1 [ceRecC2] = 1 := by
    rw [cSumSensis, hnr, rsum_cons, rsum_nil, hsum, add_zero]
  have hsa : cSumAbsSensis ceCfgC2 RiskType.CreditVol "USD" 1 true [ceRecC2] = 1 := by
    rw [cSumAbsSensis, hnr, rsum_cons, rsum_nil, habs, add_zero]
  have hresmem : "Residual" ∉ keysOf [ceRecC2] := by
    rw [hkeys]
    simp
  have hinter : cInterSq ceCfgC2 RiskType.CreditVol "USD" 1 [ceRecC2] = 1 := by
    rw [cInterSq, hnr, rsum_cons, rsum_nil, hck, crossSum, crossSum, rsum_nil]
    norm_num
  have hresabs : cResAbs ceCfgC2 RiskType.CreditVol "USD" 1 true [ceRecC2] = 0 := by
    rw [cResAbs, if_neg hresmem]
  have hmain : cMainMargin ceCfgC2 RiskType.CreditVol "USD" 1 true [ceRecC2] = 4 := by
    have hq : ceCfgC2.q995 = 2 := rfl
    rw [cMainMargin, if_neg (by rw [hsa]; norm_num), hss, hsa, hinter, lambdaOf, hq]
    rw [show max (1 : ℝ) 0 = 1 from max_eq_left (by norm_num), Real.sqrt_one]
    rw [show min ((1 : ℝ) / 1) 0 = 0 from by rw [div_one]; exact min_eq_right (by norm_num)]
    rw [show (1 : ℝ) + ((2 * 2 - 1) * (1 + 0) - 0) * 1 = 4 from by norm_num]
    exact max_eq_left (by norm_num)
  have hres : cResMargin ceCfgC2 RiskType.CreditVol "USD" 1 true [ceRecC2] = 0 := by
    rw [cResMargin, if_pos hresabs]
  have hall : curvAll ceCfgC2 RiskType.CreditVol "USD" 1 true [ceRecC2] = 4 := by
    rw [curvAll, hmain, hres, add_zero]
  have hscaled : specCurvAllScaled ceCfgC2 RiskType.CreditVol "USD" 1 true [ceRecC2] = 2 := by
    rw [specCurvAllScaled, hmain, hres]
    norm_num [ceCfgC2]
  refine ⟨hall, hscaled, ?_⟩
  rw [hall, hscaled]
  norm_num

/-! ## Claim C3: concentration risk and the FX calculation-currency
    exclusion -/

theorem rsum_perm {α : Type} (l1 l2 : List α) (f : α → ℝ) (h : l1.Perm l2) :
    rsum l1 f = rsum l2 f :=
  List.Perm.sum_eq (h.map f)

theorem bEff_mem_qual_ne (calcCcy : String) (recs : List (CrifRec ℝ))
    (b : String) (r : CrifRec ℝ) (hr : r ∈ bEff RiskType.FX calcCcy recs b) :
    r.qualifier ≠ calcCcy := by
  rw [bEff, List.mem_filter] at hr
  have := hr.2
  simp only [isFxCcyExcluded, decide_eq_true_eq, Bool.not_eq_true',
    decide_eq_false_iff_not] at this
  intro hc
  simp [hc] at this

theorem bSlice_filter_comm (calcCcy : String) (recs : List (CrifRec ℝ)) (b : String) :
    bSlice (recs.filter (fun r => ¬ isFxCcyExcluded RiskType.FX calcCcy r)) b =
      (bSlice recs b).filter (fun r => ¬ isFxCcyExcluded RiskType.FX calcCcy r) := by
  rw [bSlice, bSlice, List.filter_filter, List.filter_filter]
  exact List.filter_congr (fun r _ => by
    cases h1 : (decide (r.bucket = b)) <;>
      cases h2 : (!(isFxCcyExcluded RiskType.FX calcCcy r)) <;> simp [h1, h2])

theorem bEff_filter_self (calcCcy : String) (recs : List (CrifRec ℝ)) (b : String) :
    bEff RiskType.FX calcCcy
        (recs.filter (fun r => ¬ isFxCcyExcluded RiskType.FX calcCcy r)) b =
      bEff RiskType.FX calcCcy recs b := by
  rw [bEff, bEff, bSlice_filter_comm, List.filter_filter]
  exact List.filter_congr (fun r _ => by
    cases h2 : (!(isFxCcyExcluded RiskType.FX calcCcy r)) <;> simp [h2])

theorem qualSlice_filter (calcCcy : String) (recs : List (CrifRec ℝ)) (b q : String)
    (hq : q ≠ calcCcy) :
    (bSlice (recs.filter (fun r => ¬ isFxCcyExcluded RiskType.FX calcCcy r)) b).filter
        (fun r => r.qualifier = q) =
      (bSlice recs b).filter (fun r => r.qualifier = q) := by
  rw [bSlice_filter_comm, List.filter_filter]
  exact List.filter_congr (fun r _ => by
    by_cases h1 : r.qualifier = q
    · have : ¬ isFxCcyExcluded RiskType.FX calcCcy r = true := by
        simp only [isFxCcyExcluded, decide_eq_true_eq]
        intro hc
        exact hq (h1 ▸ hc.2 ▸ rfl)
      simp [h1, this]
    · simp [h1])

theorem kB_empty_eff (cfg : SimmCfg) (rt : RiskType) (calcCcy : String)
    (recs : List (CrifRec ℝ)) (b : String) (h : bEff rt calcCcy recs b = []) :
    kB cfg rt calcCcy recs b = 0 ∧ sB cfg rt calcCcy recs b = 0 := by
  have hks : kSq cfg rt calcCcy recs b = 0 := by
    rw [kSq, h]
    norm_num [rsum_nil, crossSum]
  have hkb : kB cfg rt calcCcy recs b = 0 := by
    rw [kB, hks, max_self, Real.sqrt_zero]
  have hsw : sumWS cfg rt calcCcy recs b = 0 := by
    rw [sumWS, h, rsum_nil]
  refine ⟨hkb, ?_⟩
  rw [sB, hsw, hkb, clamp]
  norm_num

/-- C3 (amended).  The concentration risk of the generic calculator equals
    the spec formula `max(1, sqrt(|Σ amountUsd·σ·HVR| / threshold))` for
    positive thresholds; Risk_FX records in the calculation currency are
    excluded from the concentration-risk sums of every other qualifier and
    from the weighted-sensitivity and bucket-margin sums; and provided the
    inter-bucket FX correlation is independent of the representative
    qualifiers, the FX margin with such records present equals the margin
    with them removed.  (Without that proviso the equality can fail: the
    excluded record's qualifier can change the representative qualifier
    `*buckets.at(b).begin()` used for the inter-bucket correlation.) -/
theorem fx_calcccy_exclusion (cfg : SimmCfg) (calcCcy : String) (recs : List (CrifRec ℝ))
    (c : ℝ)
    (hγ : ∀ q1 q2 : String,
      cfg.corr RiskType.FX q1 "" "" RiskType.FX q2 "" "" calcCcy = c) :
    (∀ (rt : RiskType) (b q : String), 0 < cfg.thr rt q →
      concRisk cfg rt calcCcy recs b q = specConcRisk cfg rt calcCcy recs b q) ∧
      (∀ b q : String, q ≠ calcCcy →
        concRisk cfg RiskType.FX calcCcy
            (recs.filter (fun r => ¬ isFxCcyExcluded RiskType.FX calcCcy r)) b q =
          concRisk cfg RiskType.FX calcCcy recs b q) ∧
      (∀ b : String,
        sumWS cfg RiskType.FX calcCcy
            (recs.filter (fun r => ¬ isFxCcyExcluded RiskType.FX calcCcy r)) b =
          sumWS cfg RiskType.FX calcCcy recs b) ∧
      (∀ b : String,
        kB cfg RiskType.FX calcCcy
            (recs.filter (fun r => ¬ isFxCcyExcluded RiskType.FX calcCcy r)) b =
          kB cfg RiskType.FX calcCcy recs b) ∧
      marginAll cfg RiskType.FX calcCcy
          (recs.filter (fun r => ¬ isFxCcyExcluded RiskType.FX calcCcy r)) =
        marginAll cfg RiskType.FX calcCcy recs := by
  have hCRspec : ∀ (rt : RiskType) (b q : String), 0 < cfg.thr rt q →
      concRisk cfg rt calcCcy recs b q = specConcRisk cfg rt calcCcy recs b q := by
    intro rt b q hthr
    rw [concRisk, specConcRisk, abs_div, abs_of_pos hthr]
  have hCR : ∀ b q : String, q ≠ calcCcy →
      concRisk cfg RiskType.FX calcCcy
          (recs.filter (fun r => ¬ isFxCcyExcluded RiskType.FX calcCcy r)) b q =
        concRisk cfg RiskType.FX calcCcy recs b q := by
    intro b q hq
    rw [concRisk, concRisk, qualSlice_filter calcCcy recs b q hq]
  have hws : ∀ (b : String) (r : CrifRec ℝ), r ∈ bEff RiskType.FX calcCcy recs b →
      wsOf cfg RiskType.FX calcCcy
          (recs.filter (fun a => ¬ isFxCcyExcluded RiskType.FX calcCcy a)) b r =
        wsOf cfg RiskType.FX calcCcy recs b r := by
    intro b r hr
    rw [wsOf, wsOf, hCR b r.qualifier (bEff_mem_qual_ne calcCcy recs b r hr)]
  have hkSq : ∀ b : String,
      kSq cfg RiskType.FX calcCcy
          (recs.filter (fun a => ¬ isFxCcyExcluded RiskType.FX calcCcy a)) b =
        kSq cfg RiskType.FX calcCcy recs b := by
    intro b
    rw [kSq, kSq, bEff_filter_self]
    congr 1
    · exact rsum_congr _ _ _ (fun r hr => by rw [hws b r hr])
    · refine crossSum_congr _ _ _ (fun o ho i hi => ?_)
      rw [hws b o ho, hws b i hi, fConc, fConc,
        hCR b o.qualifier (bEff_mem_qual_ne calcCcy recs b o ho),
        hCR b i.qualifier (bEff_mem_qual_ne calcCcy recs b i hi)]
  have hkB : ∀ b : String,
      kB cfg RiskType.FX calcCcy
          (recs.filter (fun a => ¬ isFxCcyExcluded RiskType.FX calcCcy a)) b =
        kB cfg RiskType.FX calcCcy recs b := by
    intro b
    rw [kB, kB, hkSq b]
  have hsumWS : ∀ b : String,
      sumWS cfg RiskType.FX calcCcy
          (recs.filter (fun a => ¬ isFxCcyExcluded RiskType.FX calcCcy a)) b =
        sumWS cfg RiskType.FX calcCcy recs b := by
    intro b
    rw [sumWS, sumWS, bEff_filter_self]
    exact rsum_congr _ _ _ (fun r hr => hws b r hr)
  have hsB : ∀ b : String,
      sB cfg RiskType.FX calcCcy
          (recs.filter (fun a => ¬ isFxCcyExcluded RiskType.FX calcCcy a)) b =
        sB cfg RiskType.FX calcCcy recs b := by
    intro b
    rw [sB, sB, hsumWS b, hkB b]
  have hmem2 : ∀ b : String,
      b ∈ keysOf (recs.filter (fun a => ¬ isFxCcyExcluded RiskType.FX calcCcy a)) ↔
        bEff RiskType.FX calcCcy recs b ≠ [] := by
    intro b
    rw [keysOf, mem_firstDedup, List.mem_map]
    constructor
    · rintro ⟨r, hr, hrb⟩
      rw [List.mem_filter] at hr
      intro hnil
      have hmem : r ∈ bEff RiskType.FX calcCcy recs b := by
        rw [bEff, List.mem_filter, bSlice, List.mem_filter]
        exact ⟨⟨hr.1, by simp [hrb]⟩, hr.2⟩
      rw [hnil] at hmem
      cases hmem
    · intro hne
      cases hbe : bEff RiskType.FX calcCcy recs b with
      | nil => exact absurd hbe hne
      | cons r tl =>
          have hr : r ∈ bEff RiskType.FX calcCcy recs b := by
            rw [hbe]
            exact List.mem_cons_self r tl
          rw [bEff, List.mem_filter, bSlice, List.mem_filter] at hr
          refine ⟨r, List.mem_filter.mpr ⟨hr.1.1, hr.2⟩, ?_⟩
          simpa using hr.1.2
  have hkeys_sub : ∀ b : String,
      b ∈ keysOf (recs.filter (fun a => ¬ isFxCcyExcluded RiskType.FX calcCcy a)) →
        b ∈ keysOf recs := by
    intro b hb
    rw [keysOf, mem_firstDedup, List.mem_map] at hb ⊢
    obtain ⟨r, hr, hrb⟩ := hb
    rw [List.mem_filter] at hr
    exact ⟨r, hr.1, hrb⟩
  have hperm : ((nonResKeys recs).filter
        (fun b => !(bEff RiskType.FX calcCcy recs b).isEmpty)).Perm
      (nonResKeys (recs.filter (fun a => ¬ isFxCcyExcluded RiskType.FX calcCcy a))) := by
    have hnd1 : ((nonResKeys recs).filter
        (fun b => !(bEff RiskType.FX calcCcy recs b).isEmpty)).Nodup :=
      List.Nodup.filter _ (List.Nodup.filter _ (nodup_firstDedup _))
    have hnd2 : (nonResKeys
        (recs.filter (fun a => ¬ isFxCcyExcluded RiskType.FX calcCcy a))).Nodup :=
      List.Nodup.filter _ (nodup_firstDedup _)
    refine (List.perm_ext_iff_of_nodup hnd1 hnd2).mpr ?_
    intro b
    rw [List.mem_filter, nonResKeys, List.mem_filter, nonResKeys, List.mem_filter]
    constructor
    · rintro ⟨⟨-, hbr⟩, hbe⟩
      refine ⟨(hmem2 b).mpr ?_, hbr⟩
      intro hc
      rw [hc] at hbe
      simp at hbe
    · rintro ⟨hb2, hbr⟩
      have hbe := (hmem2 b).mp hb2
      refine ⟨⟨?_, hbr⟩, ?_⟩
      · exact (by
          rw [keysOf, mem_firstDedup]
          have := hkeys_sub b hb2
          rw [keysOf, mem_firstDedup] at this
          exact this)
      · cases hE : (bEff RiskType.FX calcCcy recs b).isEmpty
        · rfl
        · exact absurd (List.isEmpty_iff.mp hE) hbe
  have hsum_trans : ∀ h h' : String → ℝ,
      (∀ b, bEff RiskType.FX calcCcy recs b = [] → h b = 0) → (∀ b, h' b = h b) →
      rsum (nonResKeys recs) h =
        rsum (nonResKeys (recs.filter (fun a => ¬ isFxCcyExcluded RiskType.FX calcCcy a)))
          h' := by
    intro h h' hvanish hagree
    rw [rsum_filter_vanish (nonResKeys recs)
      (fun b => !(bEff RiskType.FX calcCcy recs b).isEmpty) h
      (fun b _ hb => hvanish b (by
        simp only [Bool.not_eq_false'] at hb
        exact List.isEmpty_iff.mp hb))]
    rw [rsum_perm _ _ h hperm]
    exact rsum_congr _ _ _ (fun b _ => (hagree b).symm)
  have hcross : ∀ rs : List (CrifRec ℝ),
      crossSum (fun bo bi => 2 * sB cfg RiskType.FX calcCcy rs bo *
        sB cfg RiskType.FX calcCcy rs bi * gammaB cfg RiskType.FX calcCcy rs bo bi)
        (nonResKeys rs) =
      c * ((rsum (nonResKeys rs) (sB cfg RiskType.FX calcCcy rs)) ^ 2 -
        rsum (nonResKeys rs) (fun b => sB cfg RiskType.FX calcCcy rs b ^ 2)) := by
    intro rs
    rw [crossSum_congr _ _
      (fun bo bi => 2 * c * sB cfg RiskType.FX calcCcy rs bo *
        sB cfg RiskType.FX calcCcy rs bi)
      (fun bo _ bi _ => by rw [gammaB, hγ]; ring)]
    exact crossSum_sym_closed (sB cfg RiskType.FX calcCcy rs) c (nonResKeys rs)
  have hk2 : rsum (nonResKeys recs) (fun b => kB cfg RiskType.FX calcCcy recs b ^ 2) =
      rsum (nonResKeys (recs.filter (fun a => ¬ isFxCcyExcluded RiskType.FX calcCcy a)))
        (fun b => kB cfg RiskType.FX calcCcy
          (recs.filter (fun a => ¬ isFxCcyExcluded RiskType.FX calcCcy a)) b ^ 2) :=
    hsum_trans _ _
      (fun b hb => by
        rw [(kB_empty_eff cfg RiskType.FX calcCcy recs b hb).1]
        norm_num)
      (fun b => by rw [hkB b])
  have hs1 : rsum (nonResKeys recs) (sB cfg RiskType.FX calcCcy recs) =
      rsum (nonResKeys (recs.filter (fun a => ¬ isFxCcyExcluded RiskType.FX calcCcy a)))
        (sB cfg RiskType.FX calcCcy
          (recs.filter (fun a => ¬ isFxCcyExcluded RiskType.FX calcCcy a))) :=
    hsum_trans _ _
      (fun b hb => (kB_empty_eff cfg RiskType.FX calcCcy recs b hb).2)
      (fun b => hsB b)
  have hs2 : rsum (nonResKeys recs) (fun b => sB cfg RiskType.FX calcCcy recs b ^ 2) =
      rsum (nonResKeys (recs.filter (fun a => ¬ isFxCcyExcluded RiskType.FX calcCcy a)))
        (fun b => sB cfg RiskType.FX calcCcy
          (recs.filter (fun a => ¬ isFxCcyExcluded RiskType.FX calcCcy a)) b ^ 2) :=
    hsum_trans _ _
      (fun b hb => by
        rw [(kB_empty_eff cfg RiskType.FX calcCcy recs b hb).2]
        norm_num)
      (fun b => by rw [hsB b])
  have hinter : interSq cfg RiskType.FX calcCcy
        (recs.filter (fun a => ¬ isFxCcyExcluded RiskType.FX calcCcy a)) =
      interSq cfg RiskType.FX calcCcy recs := by
    rw [interSq, interSq, hcross, hcross, ← hk2, ← hs1, ← hs2]
  have hkres : kResidual cfg RiskType.FX calcCcy
        (recs.filter (fun a => ¬ isFxCcyExcluded RiskType.FX calcCcy a)) =
      kResidual cfg RiskType.FX calcCcy recs := by
    rw [kResidual, kResidual]
    by_cases h2 : "Residual" ∈
        keysOf (recs.filter (fun a => ¬ isFxCcyExcluded RiskType.FX calcCcy a))
    · rw [if_pos h2, if_pos (hkeys_sub _ h2), hkB]
    · rw [if_neg h2]
      by_cases h1 : "Residual" ∈ keysOf recs
      · rw [if_pos h1]
        have hempty : bEff RiskType.FX calcCcy recs "Residual" = [] := by
          by_contra hne
          exact h2 ((hmem2 "Residual").mpr hne)
        exact ((kB_empty_eff cfg RiskType.FX calcCcy recs "Residual" hempty).1).symm
      · rw [if_neg h1]
  refine ⟨hCRspec, hCR, hsumWS, hkB, ?_⟩
  rw [marginAll, marginAll, hinter, hkres]

/-- Witness for the amended C3 theorem: at the constant-correlation
    configuration, a single Credit vega record and calculation currency
    "USD", every conjunct of the amended statement holds. -/
theorem fx_calcccy_exclusion_witness :
    (∀ (rt : RiskType) (b q : String), 0 < ceCfgC2.thr rt q →
      concRisk ceCfgC2 rt "USD" [ceRecC2] b q = specConcRisk ceCfgC2 rt "USD" [ceRecC2] b q) ∧
      (∀ b q : String, q ≠ "USD" →
        concRisk ceCfgC2 RiskType.FX "USD"
            ([ceRecC2].filter (fun r => ¬ isFxCcyExcluded RiskType.FX "USD" r)) b q =
          concRisk ceCfgC2 RiskType.FX "USD" [ceRecC2] b q) ∧
      (∀ b : String,
        sumWS ceCfgC2 RiskType.FX "USD"
            ([ceRecC2].filter (fun r => ¬ isFxCcyExcluded RiskType.FX "USD" r)) b =
          sumWS ceCfgC2 RiskType.FX "USD" [ceRecC2] b) ∧
      (∀ b : String,
        kB ceCfgC2 RiskType.FX "USD"
            ([ceRecC2].filter (fun r => ¬ isFxCcyExcluded RiskType.FX "USD" r)) b =
          kB ceCfgC2 RiskType.FX "USD" [ceRecC2] b) ∧
      marginAll ceCfgC2 RiskType.FX "USD"
          ([ceRecC2].filter (fun r => ¬ isFxCcyExcluded RiskType.FX "USD" r)) =
        marginAll ceCfgC2 RiskType.FX "USD" [ceRecC2] :=
  fx_calcccy_exclusion ceCfgC2 "USD" [ceRecC2] 0 (fun _ _ => rfl)

/-- C3 (counterexample).  An excluded calculation-currency FX record can
    change the FX margin: its qualifier "AUD" becomes the representative
    qualifier `*buckets.at(b).begin()` of its bucket, and the inter-bucket
    correlation is looked up on that representative.  With a correlation of
    zero against "AUD" and one half against "EUR", the margin with the
    excluded record present is `sqrt 2` while with it removed it is
    `sqrt 3`, refuting "the FX delta margin with such records present
    equals the margin with them removed". -/
theorem fx_exclusion_counterexample :
    marginAll ceCfgC3 RiskType.FX "AUD" ceRecsC3 = Real.sqrt 2 ∧
      marginAll ceCfgC3 RiskType.FX "AUD"
          (ceRecsC3.filter (fun r => ¬ isFxCcyExcluded RiskType.FX "AUD" r)) = Real.sqrt 3 ∧
      marginAll ceCfgC3 RiskType.FX "AUD" ceRecsC3 ≠
        marginAll ceCfgC3 RiskType.FX "AUD"
          (ceRecsC3.filter (fun r => ¬ isFxCcyExcluded RiskType.FX "AUD" r)) := by
  have hfilt : ceRecsC3.filter (fun r => ¬ isFxCcyExcluded RiskType.FX "AUD" r) =
      [ceRecC3a, ceRecC3c] := by
    simp [ceRecsC3, ceRecC3a, ceRecC3b, ceRecC3c, isFxCcyExcluded, List.filter]
  have hkeys1 : keysOf ceRecsC3 = ["1", "2"] := by
    simp [keysOf, firstDedup, firstDedupAux, ceRecsC3, ceRecC3a, ceRecC3b, ceRecC3c]
  have hnr1 : nonResKeys ceRecsC3 = ["1", "2"] := by
    rw [nonResKeys, hkeys1]
    simp
  have hkeys2 : keysOf [ceRecC3a, ceRecC3c] = ["1", "2"] := by
    simp [keysOf, firstDedup, firstDedupAux, ceRecC3a, ceRecC3c]
  have hnr2 : nonResKeys [ceRecC3a, ceRecC3c] = ["1", "2"] := by
    rw [nonResKeys, hkeys2]
    simp
  have hsl11 : bSlice ceRecsC3 "1" = [ceRecC3a] := by
    simp [bSlice, ceRecsC3, ceRecC3a, ceRecC3b, ceRecC3c, List.filter]
  have hsl12 : bSlice ceRecsC3 "2" = [ceRecC3b, ceRecC3c] := by
    simp [bSlice, ceRecsC3, ceRecC3a, ceRecC3b, ceRecC3c, List.filter]
  have hsl21 : bSlice [ceRecC3a, ceRecC3c] "1" = [ceRecC3a] := by
    simp [bSlice, ceRecC3a, ceRecC3c, List.filter]
  have hsl22 : bSlice [ceRecC3a, ceRecC3c] "2" = [ceRecC3c] := by
    simp [bSlice, ceRecC3a, ceRecC3c, List.filter]
  have hbe11 : bEff RiskType.FX "AUD" ceRecsC3 "1" = [ceRecC3a] := by
    rw [bEff, hsl11]
    simp [isFxCcyExcluded, ceRecC3a, List.filter]
  have hbe12 : bEff RiskType.FX "AUD" ceRecsC3 "2" = [ceRecC3c] := by
    rw [bEff, hsl12]
    simp [isFxCcyExcluded, ceRecC3b, ceRecC3c, List.filter]
  have hbe21 : bEff RiskType.FX "AUD" [ceRecC3a, ceRecC3c] "1" = [ceRecC3a] := by
    rw [bEff, hsl21]
    simp [isFxCcyExcluded, ceRecC3a, List.filter]
  have hbe22 : bEff RiskType.FX "AUD" [ceRecC3a, ceRecC3c] "2" = [ceRecC3c] := by
    rw [bEff, hsl22]
    simp [isFxCcyExcluded, ceRecC3c, List.filter]
  have hfa : [ceRecC3a].filter (fun r => r.qualifier = "JPY") = [ceRecC3a] := by
    simp [ceRecC3a, List.filter]
  have hfbc : [ceRecC3b, ceRecC3c].filter (fun r => r.qualifier = "EUR") = [ceRecC3c] := by
    simp [ceRecC3b, ceRecC3c, List.filter]
  have hfc : [ceRecC3c].filter (fun r => r.qualifier = "EUR") = [ceRecC3c] := by
    simp [ceRecC3c, List.filter]
  have hcr11 : concRisk ceCfgC3 RiskType.FX "AUD" ceRecsC3 "1" "JPY" = 1 := by
    rw [concRisk, hsl11, hfa, rsum_cons, rsum_nil]
    norm_num [ceCfgC3, ceRecC3a]
  have hcr12 : concRisk ceCfgC3 RiskType.FX "AUD" ceRecsC3 "2" "EUR" = 1 := by
    rw [concRisk, hsl12, hfbc, rsum_cons, rsum_nil]
    norm_num [ceCfgC3, ceRecC3c]
  have hcr21 : concRisk ceCfgC3 RiskType.FX "AUD" [ceRecC3a, ceRecC3c] "1" "JPY" = 1 := by
    rw [concRisk, hsl21, hfa, rsum_cons, rsum_nil]
    norm_num [ceCfgC3, ceRecC3a]
  have hcr22 : concRisk ceCfgC3 RiskType.FX "AUD" [ceRecC3a, ceRecC3c] "2" "EUR" = 1 := by
    rw [concRisk, hsl22, hfc, rsum_cons, rsum_nil]
    norm_num [ceCfgC3, ceRecC3c]
  have hqa : ceRecC3a.qualifier = "JPY" := rfl
  have hqc : ceRecC3c.qualifier = "EUR" := rfl
  have hws11 : wsOf ceCfgC3 RiskType.FX "AUD" ceRecsC3 "1" ceRecC3a = 1 := by
    rw [wsOf, hqa, hcr11]
    norm_num [ceCfgC3, ceRecC3a]
  have hws12 : wsOf ceCfgC3 RiskType.FX "AUD" ceRecsC3 "2" ceRecC3c = 1 := by
    rw [wsOf, hqc, hcr12]
    norm_num [ceCfgC3, ceRecC3c]
  have hws21 : wsOf ceCfgC3 RiskType.FX "AUD" [ceRecC3a, ceRecC3c] "1" ceRecC3a = 1 := by
    rw [wsOf, hqa, hcr21]
    norm_num [ceCfgC3, ceRecC3a]
  have hws22 : wsOf ceCfgC3 RiskType.FX "AUD" [ceRecC3a, ceRecC3c] "2" ceRecC3c = 1 := by
    rw [wsOf, hqc, hcr22]
    norm_num [ceCfgC3, ceRecC3c]
  have hk11 : kB ceCfgC3 RiskType.FX "AUD" ceRecsC3 "1" = 1 := by
    rw [kB, kSq, hbe11, rsum_cons, rsum_nil, crossSum, crossSum, rsum_nil, hws11]
    norm_num
  have hk12 : kB ceCfgC3 RiskType.FX "AUD" ceRecsC3 "2" = 1 := by
    rw [kB, kSq, hbe12, rsum_cons, rsum_nil, crossSum, crossSum, rsum_nil, hws12]
    norm_num
  have hk21 : kB ceCfgC3 RiskType.FX "AUD" [ceRecC3a, ceRecC3c] "1" = 1 := by
    rw [kB, kSq, hbe21, rsum_cons, rsum_nil, crossSum, crossSum, rsum_nil, hws21]
    norm_num
  have hk22 : kB ceCfgC3 RiskType.FX "AUD" [ceRecC3a, ceRecC3c] "2" = 1 := by
    rw [kB, kSq, hbe22, rsum_cons, rsum_nil, crossSum, crossSum, rsum_nil, hws22]
    norm_num
  have hsb11 : sB ceCfgC3 RiskType.FX "AUD" ceRecsC3 "1" = 1 := by
    rw [sB, sumWS, hbe11, rsum_cons, rsum_nil, hws11, hk11, clamp]
    norm_num
  have hsb12 : sB ceCfgC3 RiskType.FX "AUD" ceRecsC3 "2" = 1 := by
    rw [sB, sumWS, hbe12, rsum_cons, rsum_nil, hws12, hk12, clamp]
    norm_num
  have hsb21 : sB ceCfgC3 RiskType.FX "AUD" [ceRecC3a, ceRecC3c] "1" = 1 := by
    rw [sB, sumWS, hbe21, rsum_cons, rsum_nil, hws21, hk21, clamp]
    norm_num
  have hsb22 : sB ceCfgC3 RiskType.FX "AUD" [ceRecC3a, ceRecC3c] "2" = 1 := by
    rw [sB, sumWS, hbe22, rsum_cons, rsum_nil, hws22, hk22, clamp]
    norm_num
  have hrq11 : repQual ceRecsC3 "1" = "JPY" := by
    rw [repQual, hsl11]
    simp [minQual, ceRecC3a]
  have hrq12 : repQual ceRecsC3 "2" = "AUD" := by
    rw [repQual, hsl12]
    have hm : minQual [ceRecC3b.qualifier, ceRecC3c.qualifier] = min "AUD" "EUR" := rfl
    rw [List.map_cons, List.map_cons, List.map_nil, hm, min_def, if_pos]
    exact le_of_lt (String.lt_iff_toList_lt.mpr (by decide))
  have hrq21 : repQual [ceRecC3a, ceRecC3c] "1" = "JPY" := by
    rw [repQual, hsl21]
    simp [minQual, ceRecC3a]
  have hrq22 : repQual [ceRecC3a, ceRecC3c] "2" = "EUR" := by
    rw [repQual, hsl22]
    simp [minQual, ceRecC3c]
  have hg1 : gammaB ceCfgC3 RiskType.FX "AUD" ceRecsC3 "2" "1" = 0 := by
    rw [gammaB, hrq12, hrq11]
    simp [ceCfgC3]
  have hg2 : gammaB ceCfgC3 RiskType.FX "AUD" [ceRecC3a, ceRecC3c] "2" "1" = 1 / 2 := by
    rw [gammaB, hrq22, hrq21]
    simp [ceCfgC3]
  have hint1 : interSq ceCfgC3 RiskType.FX "AUD" ceRecsC3 = 2 := by
    rw [interSq, hnr1, rsum_cons, rsum_cons, rsum_nil, crossSum, crossSum, crossSum,
      rsum_cons, rsum_nil, rsum_nil, hk11, hk12, hsb11, hsb12, hg1]
    norm_num
  have hint2 : interSq ceCfgC3 RiskType.FX "AUD" [ceRecC3a, ceRecC3c] = 3 := by
    rw [interSq, hnr2, rsum_cons, rsum_cons, rsum_nil, crossSum, crossSum, crossSum,
      rsum_cons, rsum_nil, rsum_nil, hk21, hk22, hsb21, hsb22, hg2]
    norm_num
  have hkr1 : kResidual ceCfgC3 RiskType.FX "AUD" ceRecsC3 = 0 := by
    rw [kResidual, if_neg]
    rw [hkeys1]
    simp
  have hkr2 : kResidual ceCfgC3 RiskType.FX "AUD" [ceRecC3a, ceRecC3c] = 0 := by
    rw [kResidual, if_neg]
    rw [hkeys2]
    simp
  have hm1 : marginAll ceCfgC3 RiskType.FX "AUD" ceRecsC3 = Real.sqrt 2 := by
    rw [marginAll, hint1, hkr1, add_zero,
      show max (2 : ℝ) 0 = 2 from max_eq_left (by norm_num)]
  have hm2 : marginAll ceCfgC3 RiskType.FX "AUD" [ceRecC3a, ceRecC3c] = Real.sqrt 3 := by
    rw [marginAll, hint2, hkr2, add_zero,
      show max (3 : ℝ) 0 = 3 from max_eq_left (by norm_num)]
  refine ⟨hm1, by rw [hfilt]; exact hm2, ?_⟩
  rw [hm1, hfilt, hm2]
  exact ne_of_lt (Real.sqrt_lt_sqrt (by norm_num) (by norm_num))

/-! ## Claim C4: the Interest-Rate delta margin -/

/-- C4 (counterexample).  An IRCurve record of four USD drives the
    currency's concentration risk to `CR = 2`; an XCcyBasis record of
    three USD is weighted WITHOUT the concentration-risk factor
    (lines 558-559), so the code's per-currency margin is
    `sqrt(8² + 3²) = sqrt 73`, while the claim's
    `WS = RW · amountUsd · CR_q` for all three risk types gives
    `sqrt(8² + 6²) = 10`. -/
theorem ir_xccy_ws_counterexample :
    irK ceCfgC2 "USD" ceRecsC4 "EUR" = Real.sqrt 73 ∧
      specIrKClaim ceCfgC2 "USD" ceRecsC4 "EUR" = 10 ∧
      irK ceCfgC2 "USD" ceRecsC4 "EUR" ≠ specIrKClaim ceCfgC2 "USD" ceRecsC4 "EUR" := by
  have hsl : irSlice ceRecsC4 "EUR" = [ceRecC4a] := by
    simp [irSlice, ceRecsC4, ceRecC4a, ceRecC4b, List.filter]
  have hinf : inflSlice ceRecsC4 "EUR" = [] := by
    simp [inflSlice, ceRecsC4, ceRecC4a, ceRecC4b, List.filter]
  have hx : xccySlice ceRecsC4 "EUR" = [ceRecC4b] := by
    simp [xccySlice, ceRecsC4, ceRecC4a, ceRecC4b, List.filter]
  have hcr : irCR ceCfgC2 ceRecsC4 "EUR" = 2 := by
    rw [irCR, hsl, hinf, rsum_cons, rsum_nil]
    norm_num [ceCfgC2, ceRecC4a]
    rw [show (4 : ℝ) = 2 ^ 2 by norm_num, Real.sqrt_sq (by norm_num : (0 : ℝ) ≤ 2)]
  have hwsa : irWs ceCfgC2 ceRecsC4 "EUR" ceRecC4a = 8 := by
    rw [irWs, hcr]
    norm_num [ceCfgC2, ceRecC4a]
  have hinfl : irWsInfl ceCfgC2 ceRecsC4 "EUR" = 0 := by
    rw [irWsInfl, hinf]
    simp
  have hxc : irWsXccy ceCfgC2 ceRecsC4 "EUR" = 3 := by
    rw [irWsXccy, hx]
    norm_num [ceCfgC2, ceRecC4b]
  have hspecx : specIrWsXccyClaim ceCfgC2 ceRecsC4 "EUR" = 6 := by
    rw [specIrWsXccyClaim, hx]
    simp only [List.head?_cons]
    rw [hcr]
    norm_num [ceCfgC2, ceRecC4b]
  have hksq : irKSq ceCfgC2 "USD" ceRecsC4 "EUR" = 73 := by
    rw [irKSq, hsl]
    simp only [rsum_cons, rsum_nil, crossSum, hwsa, hinfl, hxc, hcr]
    norm_num [ceCfgC2]
  have hk : irK ceCfgC2 "USD" ceRecsC4 "EUR" = Real.sqrt 73 := by
    rw [irK, hksq, show max (73 : ℝ) 0 = 73 from max_eq_left (by norm_num)]
  have hsksq : specIrKSqClaim ceCfgC2 "USD" ceRecsC4 "EUR" = 100 := by
    rw [specIrKSqClaim, hsl]
    simp only [rsum_cons, rsum_nil, crossSum, hwsa, hinfl, hspecx, hcr]
    norm_num [ceCfgC2]
  have hsk : specIrKClaim ceCfgC2 "USD" ceRecsC4 "EUR" = 10 := by
    rw [specIrKClaim, hsksq, show max (100 : ℝ) 0 = 100 from max_eq_left (by norm_num),
      show (100 : ℝ) = 10 ^ 2 by norm_num, Real.sqrt_sq (by norm_num : (0 : ℝ) ≤ 10)]
  refine ⟨hk, hsk, ?_⟩
  rw [hk, hsk]
  have h73 : Real.sqrt 73 < 10 := by
    have h1 : Real.sqrt 73 < Real.sqrt 100 := Real.sqrt_lt_sqrt (by norm_num) (by norm_num)
    rwa [show (100 : ℝ) = 10 ^ 2 by norm_num,
      Real.sqrt_sq (by norm_num : (0 : ℝ) ≤ 10)] at h1
  exact ne_of_lt h73

/-- C4 (amended).  The IRCurve and Inflation weighted sensitivities carry
    the currency's concentration-risk factor, but the XCcyBasis weighted
    sensitivity is `RW · amountUsd` WITHOUT it (its product with `CR_q`
    recovers the claimed value), and the cross-currency aggregation
    carries an additional concentration factor
    `g = min(CR_b, CR_c)/max(CR_b, CR_c)` absent from the claim's step-6
    formula.  When every currency's concentration risk equals one, both
    differences vanish and the code's per-currency and total IR delta
    margins equal the claimed formulas. -/
theorem ir_delta_margin_formula (cfg : SimmCfg) (calcCcy : String)
    (recs : List (CrifRec ℝ)) (hcr : ∀ q : String, irCR cfg recs q = 1) :
    (∀ q : String,
      irWsXccy cfg recs q * irCR cfg recs q = specIrWsXccyClaim cfg recs q) ∧
      (∀ q : String, irKSq cfg calcCcy recs q = specIrKSqClaim cfg calcCcy recs q) ∧
      (∀ q : String, irK cfg calcCcy recs q = specIrKClaim cfg calcCcy recs q) ∧
      irAllSq cfg calcCcy recs = specIrAllSqClaim cfg calcCcy recs ∧
      irDeltaAll cfg calcCcy recs = specIrDeltaAllClaim cfg calcCcy recs := by
  have hxprod : ∀ q : String,
      irWsXccy cfg recs q * irCR cfg recs q = specIrWsXccyClaim cfg recs q := by
    intro q
    rw [irWsXccy, specIrWsXccyClaim]
    cases h : (xccySlice recs q).head? with
    | none => rw [zero_mul]
    | some r => rfl
  have hxeq : ∀ q : String,
      specIrWsXccyClaim cfg recs q = irWsXccy cfg recs q := by
    intro q
    rw [← hxprod q, hcr q, mul_one]
  have hkSqEq : ∀ q : String,
      irKSq cfg calcCcy recs q = specIrKSqClaim cfg calcCcy recs q := by
    intro q
    rw [irKSq, specIrKSqClaim, hxeq q]
  have hkEq : ∀ q : String,
      irK cfg calcCcy recs q = specIrKClaim cfg calcCcy recs q := by
    intro q
    rw [irK, specIrKClaim, hkSqEq q]
  have hAllSq : irAllSq cfg calcCcy recs = specIrAllSqClaim cfg calcCcy recs := by
    rw [irAllSq, specIrAllSqClaim]
    congr 1
    exact crossSum_congr _ _ _ (fun qo _ qi _ => by
      rw [hcr qo, hcr qi]
      norm_num)
  refine ⟨hxprod, hkSqEq, hkEq, hAllSq, ?_⟩
  rw [irDeltaAll, specIrDeltaAllClaim, hAllSq]

/-- Witness for the amended C4 theorem: a single XCcyBasis record of three
    USD at unit weights and thresholds has concentration risk one in every
    currency, and every conjunct of the amended statement holds. -/
theorem ir_delta_margin_formula_witness :
    (∀ q : String,
      irWsXccy ceCfgC2 [ceRecC4b] q * irCR ceCfgC2 [ceRecC4b] q =
        specIrWsXccyClaim ceCfgC2 [ceRecC4b] q) ∧
      (∀ q : String,
        irKSq ceCfgC2 "USD" [ceRecC4b] q = specIrKSqClaim ceCfgC2 "USD" [ceRecC4b] q) ∧
      (∀ q : String,
        irK ceCfgC2 "USD" [ceRecC4b] q = specIrKClaim ceCfgC2 "USD" [ceRecC4b] q) ∧
      irAllSq ceCfgC2 "USD" [ceRecC4b] = specIrAllSqClaim ceCfgC2 "USD" [ceRecC4b] ∧
      irDeltaAll ceCfgC2 "USD" [ceRecC4b] = specIrDeltaAllClaim ceCfgC2 "USD" [ceRecC4b] :=
  ir_delta_margin_formula ceCfgC2 "USD" [ceRecC4b] (fun q => by
    have h1 : irSlice [ceRecC4b] q = [] := by
      simp [irSlice, ceRecC4b, List.filter]
    have h2 : inflSlice [ceRecC4b] q = [] := by
      simp [inflSlice, ceRecC4b, List.filter]
    rw [irCR, h1, h2, rsum_nil]
    norm_num [ceCfgC2])

end Simm
